import Mathlib

/-!
# A line-numbered BASIC interpreter: program store, statements and the RUN loop

Shallow embedding of `src/Basic/program.cpp`, `src/Basic/statement.cpp` and
`src/Basic/Basic.cpp`.

* `std::map<int, T>` members of `Program` that are only ever accessed by key
  (`sourceLines`, `parsedStatements`) are finite partial functions `Int → Option T`.
* `std::set<int> lineNumbers` is iterated, so it is the list of its elements in
  iteration (ascending) order, with the ordered insert of `std::set::insert`.
* C++ exceptions are explicit: a statement returns the machine it leaves behind
  together with the value it threw, if any.
* `std::cin` / `std::cout` are the `input` / `output` fields of `Machine`.
* The expression evaluator (`exp->eval(state)`), the expression reader (`readE`) and the
  token scanner are not part of the sources at hand; the definitions take them as
  arguments `ev`, `readE` and `tokenize`.
-/

namespace Basic

/-! ## Expressions and the variable store -/

/-- Modelled from the spec: the expression tree of `exp.hpp` (not among the sources),
one of Constant(integer), Identifier(name), Compound(operator, left, right). -/
inductive Expression where
  | ConstantExp (value : Int)
  | IdentifierExp (name : String)
  | CompoundExp (op : String) (lhs rhs : Expression)
  deriving DecidableEq

/-- Modelled from the spec: the variable store of `evalstate.hpp` (not among the sources),
a mapping from variable name to integer value. -/
structure EvalState where
  symbolTable : String → Option Int

/-- Modelled from the spec: `EvalState::setValue`, insertion or update of one binding. -/
def EvalState.setValue (state : EvalState) (var : String) (value : Int) : EvalState :=
  ⟨fun k => if k = var then some value else state.symbolTable k⟩

/-- Modelled from the spec: `EvalState::getValue`, lookup of one binding. -/
def EvalState.getValue (state : EvalState) (var : String) : Option Int :=
  state.symbolTable var

/-- Modelled from the spec: `EvalState::Clear`, the reset of the variable store that RUN
performs first. -/
def EvalState.Clear (_state : EvalState) : EvalState :=
  ⟨fun _ => none⟩

/-- The type of the expression evaluator `exp->eval(state)`: a value, or the message of the
`ErrorException` it raises. The evaluator reads the variable store and leaves it as it is
(spec 4.2: evaluation has no side effects beyond the failure). -/
abbrev Evaluator := Expression → EvalState → Except String Int

/-- Modelled from the spec: evaluation of an expression against the variable store
(integer arithmetic, division truncating toward zero, division by zero and unset
variables fail). Used to instantiate the evaluator argument on concrete programs. -/
def Expression.eval : Evaluator
  | .ConstantExp v, _ => .ok v
  | .IdentifierExp name, state =>
    match state.getValue name with
    | some v => .ok v
    | none => .error "VARIABLE NOT DEFINED"
  | .CompoundExp op lhs rhs, state =>
    match Expression.eval lhs state with
    | .error e => .error e
    | .ok a =>
      match Expression.eval rhs state with
      | .error e => .error e
      | .ok b =>
        if op = "+" then .ok (a + b)
        else if op = "-" then .ok (a - b)
        else if op = "*" then .ok (a * b)
        else if op = "/" then (if b = 0 then .error "DIVIDE BY ZERO" else .ok (Int.tdiv a b))
        else .error "Illegal operator in expression"

/-! ## `std::stoi` -/

/-- The characters `strtol` skips before a number (`isspace` in the C locale). -/
def isSpaceChar (c : Char) : Bool :=
  c = ' ' || c.toNat = 9 || c.toNat = 10 || c.toNat = 11 || c.toNat = 12 || c.toNat = 13

/-- Value of a run of decimal digits. -/
def digitsValue (ds : List Char) : Nat :=
  ds.foldl (fun acc c => 10 * acc + (c.toNat - 48)) 0

/-- The function `std::stoi(str)` in base 10: leading white space is skipped, an optional
sign is read, then the longest run of digits; whatever follows the digits is ignored.
`none` stands for both exceptions (`invalid_argument` when there is no digit,
`out_of_range` when the value does not fit an `int`). -/
def stoi (str : String) : Option Int :=
  let cs := str.toList.dropWhile isSpaceChar
  let signed : Bool × List Char :=
    match cs with
    | '-' :: r => (true, r)
    | '+' :: r => (false, r)
    | r => (false, r)
  let ds := signed.2.takeWhile Char.isDigit
  if ds = [] then none
  else
    let v : Int := if signed.1 then -(digitsValue ds : Int) else (digitsValue ds : Int)
    if -2147483648 ≤ v ∧ v ≤ 2147483647 then some v else none

/-! ## Statements -/

/-- The subclasses of `Statement` declared in `statement.hpp`, with their private data. -/
inductive Statement where
  | RemStatement
  | LetStatement (varName : String) (exp : Expression)
  | PrintStatement (exp : Expression)
  | InputStatement (varName : String)
  | EndStatement
  | GotoStatement (lineNumber : Int)
  | IfStatement (exp1 : Expression) (op : String) (exp2 : Expression) (lineNumber : Int)
  | RunStatement
  | ListStatement
  | ClearStatement
  | QuitStatement
  deriving DecidableEq

/-- The statement kinds `processLine` stores under a line number. -/
def Statement.storable : Statement → Bool
  | .RemStatement | .LetStatement _ _ | .PrintStatement _ | .InputStatement _
  | .EndStatement | .GotoStatement _ | .IfStatement _ _ _ _ => true
  | _ => false

/-! ## The program store (`program.cpp`) -/

/-- The three containers of `Program`. -/
structure Program where
  sourceLines : Int → Option String
  parsedStatements : Int → Option Statement
  lineNumbers : List Int

/-- The operation `std::set<int>::insert` on the ascending list of elements. -/
def setInsert (n : Int) : List Int → List Int
  | [] => [n]
  | x :: xs =>
    if n < x then n :: x :: xs
    else if n = x then x :: xs
    else x :: setInsert n xs

/-- The freshly constructed `Program`. -/
def Program.empty : Program :=
  ⟨fun _ => none, fun _ => none, []⟩

/-- `Program::clear`. -/
def Program.clear (_p : Program) : Program :=
  ⟨fun _ => none, fun _ => none, []⟩

/-- `Program::addSourceLine`. -/
def Program.addSourceLine (p : Program) (lineNumber : Int) (line : String) : Program :=
  { sourceLines := fun k => if k = lineNumber then some line else p.sourceLines k
    lineNumbers := setInsert lineNumber p.lineNumbers
    parsedStatements := fun k => if k = lineNumber then none else p.parsedStatements k }

/-- `Program::removeSourceLine`. -/
def Program.removeSourceLine (p : Program) (lineNumber : Int) : Program :=
  { sourceLines := fun k => if k = lineNumber then none else p.sourceLines k
    lineNumbers := p.lineNumbers.erase lineNumber
    parsedStatements := fun k => if k = lineNumber then none else p.parsedStatements k }

/-- `Program::getSourceLine`. -/
def Program.getSourceLine (p : Program) (lineNumber : Int) : String :=
  match p.sourceLines lineNumber with
  | some line => line
  | none => ""

/-- `Program::setParsedStatement`. -/
def Program.setParsedStatement (p : Program) (lineNumber : Int) (stmt : Statement) : Program :=
  { p with parsedStatements := fun k => if k = lineNumber then some stmt else p.parsedStatements k }

/-- `Program::getParsedStatement`; `none` is the null pointer. -/
def Program.getParsedStatement (p : Program) (lineNumber : Int) : Option Statement :=
  p.parsedStatements lineNumber

/-- `Program::getFirstLineNumber`. -/
def Program.getFirstLineNumber (p : Program) : Int :=
  match p.lineNumbers with
  | [] => -1
  | x :: _ => x

/-- The element after the position of `n` in the iteration order, `-1` when `n` is not
found or is the last element. -/
def nextAfter (n : Int) : List Int → Int
  | [] => -1
  | x :: xs =>
    if x = n then
      match xs with
      | [] => -1
      | y :: _ => y
    else nextAfter n xs

/-- `Program::getNextLineNumber`. -/
def Program.getNextLineNumber (p : Program) (lineNumber : Int) : Int :=
  nextAfter lineNumber p.lineNumbers

/-- What `std::cout` receives: an integer followed by `endl`, or a string followed by
`endl`. -/
inductive Output where
  | value (v : Int)
  | text (s : String)
  deriving DecidableEq

/-- The loop of `Program::listAll`: `sourceLines[lineNumber]` creates an empty entry when
the key is missing. -/
def listLoop : List Int → (Int → Option String) → List Output → (Int → Option String) × List Output
  | [], src, out => (src, out)
  | n :: rest, src, out =>
    match src n with
    | some line => listLoop rest src (out ++ [Output.text line])
    | none => listLoop rest (fun k => if k = n then some "" else src k) (out ++ [Output.text ""])

/-- `Program::listAll`, on the program and the output stream. -/
def Program.listAll (p : Program) (out : List Output) : Program × List Output :=
  let r := listLoop p.lineNumbers p.sourceLines out
  ({ p with sourceLines := r.1 }, r.2)

/-! ## Executing statements (`statement.cpp`) -/

/-- Everything a statement touches: the variable store and the program it is handed by
reference, the lines still to be read from `std::cin` and the lines written to
`std::cout`. -/
structure Machine where
  state : EvalState
  program : Program
  input : List String
  output : List Output

/-- The values thrown in the sources: `error(msg)` raises an `ErrorException`, END throws
a `std::runtime_error`, GOTO and IF throw the target line as an `int`. -/
inductive Thrown where
  | ErrorException (msg : String)
  | runtime_error (msg : String)
  | int (gotoLine : Int)
  deriving DecidableEq

/-- The call `getline(std::cin, input)`: the next line, or the empty string at end of
input. -/
def getline : List String → String × List String
  | [] => ("", [])
  | l :: rest => (l, rest)

/-- `IfStatement::execute`, the comparison. -/
def ifCondition (op : String) (val1 val2 : Int) : Bool :=
  if op = "=" then decide (val1 = val2)
  else if op = "<" then decide (val1 < val2)
  else if op = ">" then decide (val1 > val2)
  else false

/-- The virtual method `Statement::execute(state, program)`. The result is the machine
after the call and the value thrown, if any; `none` only when a nested RUN (`run`) does
not come back. `run` is `RunStatement::execute`. -/
def Statement.execute (ev : Evaluator) (run : Machine → Option Machine) :
    Statement → Machine → Option (Machine × Option Thrown)
  | .RemStatement, m => some (m, none)
  | .LetStatement varName exp, m =>
    match ev exp m.state with
    | .error msg => some (m, some (.ErrorException msg))
    | .ok value => some ({ m with state := m.state.setValue varName value }, none)
  | .PrintStatement exp, m =>
    match ev exp m.state with
    | .error msg => some (m, some (.ErrorException msg))
    | .ok value => some ({ m with output := m.output ++ [Output.value value] }, none)
  | .InputStatement varName, m =>
    let r := getline m.input
    match stoi r.1 with
    | some value =>
      some ({ m with input := r.2, state := m.state.setValue varName value }, none)
    | none =>
      some ({ m with input := r.2 }, some (.ErrorException "INPUT requires integer value"))
  | .EndStatement, m => some (m, some (.runtime_error "END"))
  | .GotoStatement lineNumber, m =>
    match m.program.getParsedStatement lineNumber with
    | none => some (m, some (.ErrorException "GOTO line does not exist"))
    | some _ => some (m, some (.int lineNumber))
  | .IfStatement exp1 op exp2 lineNumber, m =>
    match ev exp1 m.state with
    | .error msg => some (m, some (.ErrorException msg))
    | .ok val1 =>
      match ev exp2 m.state with
      | .error msg => some (m, some (.ErrorException msg))
      | .ok val2 =>
        if ifCondition op val1 val2 then
          match m.program.getParsedStatement lineNumber with
          | none => some (m, some (.ErrorException "IF THEN line does not exist"))
          | some _ => some (m, some (.int lineNumber))
        else some (m, none)
  | .RunStatement, m =>
    match run m with
    | none => none
    | some m1 => some (m1, none)
  | .ListStatement, m =>
    let r := m.program.listAll m.output
    some ({ m with program := r.1, output := r.2 }, none)
  | .ClearStatement, m => some ({ m with program := m.program.clear }, none)
  | .QuitStatement, m => some (m, none)

/-! ## The RUN loop -/

/-- Where the `while` loop of `RunStatement::execute` stands after one pass through its
body: `next c m` goes back to the loop test with `currentLine = c`, `exit m` has left the
loop through `break`. -/
inductive LoopCtl where
  | next (currentLine : Int) (m : Machine)
  | exit (m : Machine)

/-- The machine of a loop position. -/
def LoopCtl.machine : LoopCtl → Machine
  | .next _ m => m
  | .exit m => m

/-- One pass through the body of the `while` loop of `RunStatement::execute`, entered with
`currentLine != -1`. -/
def loopBody (ev : Evaluator) (run : Machine → Option Machine) (currentLine : Int)
    (m : Machine) : Option LoopCtl :=
  match m.program.getParsedStatement currentLine with
  | none => some (.next (m.program.getNextLineNumber currentLine) m)
  | some stmt =>
    match stmt.execute ev run m with
    | none => none
    | some (m1, none) => some (.next (m1.program.getNextLineNumber currentLine) m1)
    | some (m1, some (.int gotoLine)) => some (.next gotoLine m1)
    | some (m1, some _) => some (.exit m1)

/-- The `while (currentLine != -1)` loop of `RunStatement::execute`, with a bound on the
number of loop tests (a BASIC program need not halt). A stored RUN statement re-enters
`RunStatement::execute` with the remaining bound. -/
def runLoop (ev : Evaluator) : Nat → Int → Machine → Option Machine
  | 0, _, _ => none
  | fuel + 1, currentLine, m =>
    if currentLine = -1 then some m
    else
      match loopBody ev
          (fun m0 => runLoop ev fuel m0.program.getFirstLineNumber
            { m0 with state := m0.state.Clear })
          currentLine m with
      | none => none
      | some (.next c m1) => runLoop ev fuel c m1
      | some (.exit m1) => some m1

/-- `RunStatement::execute`. -/
def RunStatement.execute (ev : Evaluator) (fuel : Nat) (m : Machine) : Option Machine :=
  runLoop ev fuel m.program.getFirstLineNumber { m with state := m.state.Clear }

/-! ## Building statements from tokens (`statement.cpp` constructors) -/

/-- The type of the token scanner: the tokens `TokenScanner` (white space ignored, numbers
scanned) delivers for an input string. A scanner is the list of its remaining tokens. -/
abbrev Tokenizer := String → List String

/-- The type of `readE(scanner)`: the expression read and the tokens left in the scanner, or
the message of the `ErrorException` raised. -/
abbrev ExpReader := List String → Except String (Expression × List String)

/-- The call `s.substr(0, s.length() - 1)` on a non-empty string. -/
def dropLastChar (s : String) : String :=
  String.mk s.toList.dropLast

/-- `LetStatement::LetStatement(scanner)`. -/
def LetStatement.new (readE : ExpReader) : List String → Except String Statement
  | [] => .error "LET requires variable and expression"
  | varName :: rest =>
    match rest with
    | [] => .error "LET requires = and expression"
    | equals :: rest2 =>
      if equals ≠ "=" then .error "LET requires ="
      else if rest2 = [] then .error "LET requires expression"
      else
        match readE rest2 with
        | .error msg => .error msg
        | .ok (exp, _) => .ok (.LetStatement varName exp)

/-- `PrintStatement::PrintStatement(scanner)`. -/
def PrintStatement.new (readE : ExpReader) (scanner : List String) : Except String Statement :=
  if scanner = [] then .error "PRINT requires expression"
  else
    match readE scanner with
    | .error msg => .error msg
    | .ok (exp, _) => .ok (.PrintStatement exp)

/-- `InputStatement::InputStatement(scanner)`. -/
def InputStatement.new : List String → Except String Statement
  | [] => .error "INPUT requires variable name"
  | varName :: _ => .ok (.InputStatement varName)

/-- `GotoStatement::GotoStatement(scanner)`. -/
def GotoStatement.new : List String → Except String Statement
  | [] => .error "GOTO requires line number"
  | lineStr :: _ =>
    match stoi lineStr with
    | some lineNumber => .ok (.GotoStatement lineNumber)
    | none => .error "GOTO requires valid line number"

/-- First loop of `IfStatement::IfStatement`: collects tokens into `exp1Str` up to the
first comparison operator; yields `exp1Str`, `op` and the scanner. -/
def scanToOperator : List String → String → String × String × List String
  | [], exp1Str => (exp1Str, "", [])
  | token :: rest, exp1Str =>
    if token = "<" ∨ token = ">" ∨ token = "=" then (exp1Str, token, rest)
    else scanToOperator rest (exp1Str ++ (token ++ " "))

/-- Second loop of `IfStatement::IfStatement`: collects tokens into `exp2Str` up to
`THEN`; yields `exp2Str`, `foundThen` and the scanner. -/
def scanToThen : List String → String → String × Bool × List String
  | [], exp2Str => (exp2Str, false, [])
  | token :: rest, exp2Str =>
    if token = "THEN" then (exp2Str, true, rest)
    else scanToThen rest (exp2Str ++ (token ++ " "))

/-- `IfStatement::IfStatement(scanner)`. -/
def IfStatement.new (tokenize : Tokenizer) (readE : ExpReader) (scanner : List String) :
    Except String Statement :=
  let r1 := scanToOperator scanner ""
  if r1.1 = "" ∨ r1.2.1 = "" then .error "IF requires expression operator expression"
  else
    match readE (tokenize (dropLastChar r1.1)) with
    | .error msg => .error msg
    | .ok (exp1, _) =>
      let r2 := scanToThen r1.2.2 ""
      if r2.2.1 = false ∨ r2.1 = "" then .error "IF requires THEN and line number"
      else
        match readE (tokenize (dropLastChar r2.1)) with
        | .error msg => .error msg
        | .ok (exp2, _) =>
          match r2.2.2 with
          | [] => .error "IF requires line number after THEN"
          | lineStr :: _ =>
            match stoi lineStr with
            | some lineNumber => .ok (.IfStatement exp1 r1.2.1 exp2 lineNumber)
            | none => .error "IF requires valid line number"

/-! ## The command loop (`Basic.cpp`) -/

/-- The statement built for a numbered line from its keyword `stmtType` and the scanner
behind it (`processLine`, the chain of `if (stmtType == ...)`). -/
def newStoredStatement (tokenize : Tokenizer) (readE : ExpReader) (stmtType : String)
    (stmtScanner : List String) : Except String Statement :=
  if stmtType = "REM" then .ok .RemStatement
  else if stmtType = "LET" then LetStatement.new readE stmtScanner
  else if stmtType = "PRINT" then PrintStatement.new readE stmtScanner
  else if stmtType = "INPUT" then InputStatement.new stmtScanner
  else if stmtType = "END" then .ok .EndStatement
  else if stmtType = "GOTO" then GotoStatement.new stmtScanner
  else if stmtType = "IF" then IfStatement.new tokenize readE stmtScanner
  else .error "Invalid statement type"

/-- What a call of `processLine` leaves behind: the machine, the flag `running`, and the
exception that leaves the call, if any. -/
structure LineResult where
  machine : Machine
  running : Bool
  thrown : Option Thrown

/-- The text `HELP` writes. -/
def helpText : List Output :=
  [ Output.text "BASIC interpreter commands:",
    Output.text "RUN - Execute the stored program",
    Output.text "LIST - Display the stored program",
    Output.text "CLEAR - Clear the stored program",
    Output.text "QUIT - Exit the interpreter",
    Output.text "LET <var> = <exp> - Assign a variable",
    Output.text "PRINT <exp> - Print an expression",
    Output.text "INPUT <var> - Read input to a variable",
    Output.text "<line> <stmt> - Add line to program" ]

/-- The statement built for a direct command `cmd` that is none of RUN, LIST, CLEAR, QUIT
and HELP, from the scanner behind the command (`processLine`, the last `else` branch). -/
def newDirectStatement (readE : ExpReader) (cmd : String) (scanner : List String) :
    Except String Statement :=
  if cmd = "LET" then LetStatement.new readE scanner
  else if cmd = "PRINT" then PrintStatement.new readE scanner
  else if cmd = "INPUT" then InputStatement.new scanner
  else .error "Invalid command"

/-- A statement built and executed on the spot by `processLine`; when the constructor
raises its error nothing is executed. -/
def executeDirect (ev : Evaluator) (fuel : Nat) (built : Except String Statement) (m : Machine)
    (running : Bool) : Option LineResult :=
  match built with
  | .error msg => some ⟨m, running, some (.ErrorException msg)⟩
  | .ok stmt =>
    match stmt.execute ev (RunStatement.execute ev fuel) m with
    | none => none
    | some (m1, thrown) => some ⟨m1, running, thrown⟩

/-- `processLine` from the comment `// Direct commands` on. -/
def directCommand (tokenize : Tokenizer) (readE : ExpReader) (ev : Evaluator) (fuel : Nat)
    (line : String) (m : Machine) (running : Bool) : Option LineResult :=
  let scanner := tokenize line
  let command := scanner.headD ""
  if command = "RUN" then executeDirect ev fuel (.ok .RunStatement) m running
  else if command = "LIST" then executeDirect ev fuel (.ok .ListStatement) m running
  else if command = "CLEAR" then executeDirect ev fuel (.ok .ClearStatement) m running
  else if command = "QUIT" then some ⟨m, false, none⟩
  else if command = "HELP" then some ⟨{ m with output := m.output ++ helpText }, running, none⟩
  else executeDirect ev fuel (newDirectStatement readE command scanner.tail) m running

/-- The string `restOfLine` of `processLine`: every remaining token followed by a blank,
the last blank removed. -/
def restOfLine (tokens : List String) : String :=
  let joined := tokens.foldl (fun acc t => acc ++ (t ++ " ")) ""
  if joined = "" then joined else dropLastChar joined

/-- `processLine(line, program, state, running)`. Everything thrown inside the first
`try` block, statement construction included, is caught by its `catch (...)` and the line
is then handled as a direct command on the program as it stands. -/
def processLine (tokenize : Tokenizer) (readE : ExpReader) (ev : Evaluator) (fuel : Nat)
    (line : String) (m : Machine) (running : Bool) : Option LineResult :=
  match tokenize line with
  | [] => some ⟨m, running, none⟩
  | firstToken :: scanner =>
    match stoi firstToken with
    | none => directCommand tokenize readE ev fuel line m running
    | some lineNumber =>
      if scanner = [] then
        some ⟨{ m with program := m.program.removeSourceLine lineNumber }, running, none⟩
      else
        let m1 : Machine := { m with program := m.program.addSourceLine lineNumber line }
        match tokenize (restOfLine scanner) with
        | [] => some ⟨m1, running, none⟩
        | stmtType :: stmtScanner =>
          match newStoredStatement tokenize readE stmtType stmtScanner with
          | .ok stmt =>
            some ⟨{ m1 with program := m1.program.setParsedStatement lineNumber stmt },
              running, none⟩
          | .error _ => directCommand tokenize readE ev fuel line m1 running

/-- One pass through the `while (running)` loop of `main`: a line is read, an empty line
is skipped, and an `ErrorException` leaving `processLine` is caught and its message
written. Other exceptions are not caught by `main`. -/
def mainPass (tokenize : Tokenizer) (readE : ExpReader) (ev : Evaluator) (fuel : Nat)
    (m : Machine) (running : Bool) : Option LineResult :=
  let r := getline m.input
  let m0 : Machine := { m with input := r.2 }
  if r.1 = "" then some ⟨m0, running, none⟩
  else
    match processLine tokenize readE ev fuel r.1 m0 running with
    | none => none
    | some ⟨m1, running1, some (.ErrorException msg)⟩ =>
      some ⟨{ m1 with output := m1.output ++ [Output.text msg] }, running1, none⟩
    | some res => some res

/-- The `while (running)` loop of `main`, for at most `passes` passes; it also stops when
an exception other than `ErrorException` leaves `processLine`. -/
def mainLoop (tokenize : Tokenizer) (readE : ExpReader) (ev : Evaluator) (fuel : Nat) :
    Nat → Machine → Bool → Option LineResult
  | 0, m, running => some ⟨m, running, none⟩
  | passes + 1, m, running =>
    if running = false then some ⟨m, running, none⟩
    else
      match mainPass tokenize readE ev fuel m running with
      | none => none
      | some ⟨m1, running1, none⟩ => mainLoop tokenize readE ev fuel passes m1 running1
      | some res => some res

/-! ## Instances of the scanner and of the expression reader for concrete sessions -/

/-- Splits a line at blanks; `cur` holds the characters of the token being read, last
character first. -/
def splitBlanks : List Char → List Char → List String
  | [], cur => if cur = [] then [] else [String.mk cur.reverse]
  | c :: cs, cur =>
    if c = ' ' then
      (if cur = [] then splitBlanks cs [] else String.mk cur.reverse :: splitBlanks cs [])
    else splitBlanks cs (c :: cur)

/-- Modelled from the spec: the token scanner (an external collaborator, not among the
sources) on lines whose tokens are separated by blanks: the tokens are the maximal runs
of non-blank characters. -/
def blankTokens : Tokenizer :=
  fun line => splitBlanks line.toList []

/-- Modelled from the spec: `readE` of `parser.hpp` (not among the sources) on the
production `F → integer-literal | identifier`: one token is read. -/
def readAtom : ExpReader
  | [] => .error "Illegal term in expression"
  | token :: rest =>
    if token.toList ≠ [] ∧ token.toList.all Char.isDigit then
      .ok (.ConstantExp (digitsValue token.toList), rest)
    else if token.toList ≠ [] ∧ token.toList.all Char.isAlphanum then
      .ok (.IdentifierExp token, rest)
    else .error "Illegal term in expression"

/-- The machine `main` starts with: no variables, no program, nothing written, and the
given lines waiting on standard input. -/
def Machine.start (input : List String) : Machine :=
  ⟨⟨fun _ => none⟩, Program.empty, input, []⟩

/-! ## Definitions used in the statements of the theorems -/

/-- A machine whose program is the single line `10 GOTO 999`. -/
def gotoUndefinedMachine : Machine :=
  { state := ⟨fun _ => none⟩
    program := (Program.empty.addSourceLine 10 "10 GOTO 999").setParsedStatement 10
      (.GotoStatement 999)
    input := []
    output := [] }

/-- How the run goes on once line `line` is the current line and its parsed statement
`stmt` is executed on machine `m`: `stmt` runs, and its outcome picks the next line
(`getNextLineNumber line` after a normal return, the target after a jump) or ends the run. -/
def continueWith (ev : Evaluator) (fuel : Nat) (line : Int) (stmt : Statement) (m : Machine) :
    Option Machine :=
  match stmt.execute ev (RunStatement.execute ev fuel) m with
  | none => none
  | some (m1, none) => runLoop ev fuel (m1.program.getNextLineNumber line) m1
  | some (m1, some (.int gotoLine)) => runLoop ev fuel gotoLine m1
  | some (m1, some _) => some m1

/-- The relation `v1 op v2` for the three comparison operators of IF. -/
def comparisonHolds (op : String) (v1 v2 : Int) : Prop :=
  (op = "<" ∧ v1 < v2) ∨ (op = ">" ∧ v1 > v2) ∨ (op = "=" ∧ v1 = v2)

instance (op : String) (v1 v2 : Int) : Decidable (comparisonHolds op v1 v2) := by
  unfold comparisonHolds
  infer_instance

/-- A machine with the program `10 IF 1 < 2 THEN 30`, `20 PRINT 20`, `30 PRINT 30`. -/
def ifMachine : Machine :=
  { state := ⟨fun _ => none⟩
    program :=
      (((((Program.empty.addSourceLine 10 "10 IF 1 < 2 THEN 30").setParsedStatement 10
        (.IfStatement (.ConstantExp 1) "<" (.ConstantExp 2) 30)).addSourceLine 20
        "20 PRINT 20").setParsedStatement 20 (.PrintStatement (.ConstantExp 20))).addSourceLine
        30 "30 PRINT 30").setParsedStatement 30 (.PrintStatement (.ConstantExp 30))
    input := []
    output := [] }

/-- A machine with the program `10 GOTO 30`, `20 PRINT 20`, `30 PRINT 30`. -/
def gotoMachine : Machine :=
  { state := ⟨fun _ => none⟩
    program :=
      (((((Program.empty.addSourceLine 10 "10 GOTO 30").setParsedStatement 10
        (.GotoStatement 30)).addSourceLine 20
        "20 PRINT 20").setParsedStatement 20 (.PrintStatement (.ConstantExp 20))).addSourceLine
        30 "30 PRINT 30").setParsedStatement 30 (.PrintStatement (.ConstantExp 30))
    input := []
    output := [] }

/-- The loop of `RunStatement::execute` followed for `passes` passes (loop test, then
body), from a loop position; a position that has left the loop stays where it is. `none`
only when a nested RUN does not come back. -/
def loopPasses (ev : Evaluator) (run : Machine → Option Machine) : Nat → LoopCtl → Option LoopCtl
  | 0, c => some c
  | _ + 1, .exit m => some (.exit m)
  | passes + 1, .next currentLine m =>
    if currentLine = -1 then some (.exit m)
    else
      match loopBody ev run currentLine m with
      | none => none
      | some c => loopPasses ev run passes c

/-- Every parsed statement of the program is of a kind `processLine` stores. -/
def Program.allStorable (p : Program) : Prop :=
  ∀ n stmt, p.getParsedStatement n = some stmt → stmt.storable = true

/-- A machine with the program `10 INPUT X`, `20 END` and one line of input waiting. -/
def inputEndMachine : Machine :=
  { state := ⟨fun _ => none⟩
    program :=
      (((Program.empty.addSourceLine 10 "10 INPUT X").setParsedStatement 10
        (.InputStatement "X")).addSourceLine 20 "20 END").setParsedStatement 20 .EndStatement
    input := ["4"]
    output := [] }

/-- The calls that change a `Program`: its mutating member functions, `listAll` among them
because `sourceLines[lineNumber]` may create an entry. -/
inductive ProgramOp where
  | clear
  | addSourceLine (lineNumber : Int) (line : String)
  | removeSourceLine (lineNumber : Int)
  | setParsedStatement (lineNumber : Int) (stmt : Statement)
  | listAll
  deriving DecidableEq

/-- One call on a program. -/
def Program.applyOp (p : Program) : ProgramOp → Program
  | .clear => p.clear
  | .addSourceLine lineNumber line => p.addSourceLine lineNumber line
  | .removeSourceLine lineNumber => p.removeSourceLine lineNumber
  | .setParsedStatement lineNumber stmt => p.setParsedStatement lineNumber stmt
  | .listAll => (p.listAll []).1

/-- The program state reached from the freshly constructed `Program` by a sequence of
calls, first call first. -/
def Program.afterOps (ops : List ProgramOp) : Program :=
  ops.foldl Program.applyOp Program.empty

/-- The call is `setParsedStatement(n, _)`. -/
def ProgramOp.setsStatement (n : Int) : ProgramOp → Bool
  | .setParsedStatement lineNumber _ => decide (lineNumber = n)
  | _ => false

/-- The storable statement kinds other than GOTO and IF. -/
def Statement.simple : Statement → Bool
  | .RemStatement | .LetStatement _ _ | .PrintStatement _ | .InputStatement _
  | .EndStatement => true
  | _ => false

/-- Every parsed statement of the program is REM, LET, PRINT, INPUT or END. -/
def Program.allSimple (p : Program) : Prop :=
  ∀ n stmt, p.getParsedStatement n = some stmt → stmt.simple = true

/-- The run in the words of the spec for a program without jumps: the lines are visited
once each in the order given, a line without parsed statement is passed over, the
statement of a line is executed, and the run stops at the first statement that does not
return normally (END or a failure) or after the last line. -/
def straightRun (ev : Evaluator) : List Int → Machine → Machine
  | [], m => m
  | line :: rest, m =>
    match m.program.getParsedStatement line with
    | none => straightRun ev rest m
    | some stmt =>
      match stmt.execute ev (fun _ => none) m with
      | none => m
      | some (m1, none) => straightRun ev rest m1
      | some (m1, some _) => m1

/-- A program in which line 7 was never added and has a parsed statement. -/
def orphanProgram : Program :=
  Program.empty.setParsedStatement 7 .RemStatement

/-- The calls that enter `10 LET X = 5`, `20 PRINT X`, `30 END`. -/
def letPrintEndOps : List ProgramOp :=
  [ .addSourceLine 10 "10 LET X = 5",
    .setParsedStatement 10 (.LetStatement "X" (.ConstantExp 5)),
    .addSourceLine 20 "20 PRINT X",
    .setParsedStatement 20 (.PrintStatement (.IdentifierExp "X")),
    .addSourceLine 30 "30 END",
    .setParsedStatement 30 .EndStatement ]

/-- A machine with the program `10 IF 2 < 1 THEN 999`, `20 PRINT 20`; line 999 does not
exist. -/
def ifFalseMachine : Machine :=
  { state := ⟨fun _ => none⟩
    program :=
      (((Program.empty.addSourceLine 10 "10 IF 2 < 1 THEN 999").setParsedStatement 10
        (.IfStatement (.ConstantExp 2) "<" (.ConstantExp 1) 999)).addSourceLine 20
        "20 PRINT 20").setParsedStatement 20 (.PrintStatement (.ConstantExp 20))
    input := []
    output := [] }

/-- A machine with the program `10 LET` (text only, no parsed statement), `20 PRINT 20`. -/
def unparsedLineMachine : Machine :=
  { state := ⟨fun _ => none⟩
    program :=
      ((Program.empty.addSourceLine 10 "10 LET").addSourceLine 20
        "20 PRINT 20").setParsedStatement 20 (.PrintStatement (.ConstantExp 20))
    input := []
    output := [] }

/-- What one call does to the text kept for line `n`, `cur` being the text kept so far:
`addSourceLine(n, t)` makes it `t`, `removeSourceLine(n)` and `clear()` drop it, every
other call leaves it. -/
def ProgramOp.textStep (n : Int) (cur : Option String) : ProgramOp → Option String
  | .clear => none
  | .addSourceLine lineNumber line => if lineNumber = n then some line else cur
  | .removeSourceLine lineNumber => if lineNumber = n then none else cur
  | _ => cur

/-- The current source text of line `n` after a sequence of calls on a fresh program, read
off the calls: the text of the last `addSourceLine(n, _)` unless a `removeSourceLine(n)`
or a `clear()` came after it. -/
def currentText (n : Int) (ops : List ProgramOp) : Option String :=
  ops.foldl (ProgramOp.textStep n) none

/-- A sequence of calls of `processLine`, first call first, each line with the bound for
a RUN it may start; the machine and the flag `running` are handed from call to call,
whether or not the call raised an error. `none` when a RUN is cut off by its bound. -/
def processLines (tokenize : Tokenizer) (readE : ExpReader) (ev : Evaluator) :
    List (String × Nat) → Machine → Bool → Option (Machine × Bool)
  | [], m, running => some (m, running)
  | (line, fuel) :: rest, m, running =>
    match processLine tokenize readE ev fuel line m running with
    | none => none
    | some r => processLines tokenize readE ev rest r.machine r.running

/-- The value of `getNextLineNumber t` is the successor of `t` among the stored line
numbers: the least line number of the index above `t` when there is one, `-1` when `t` is
the greatest. -/
def Program.successorLookup (p : Program) (t : Int) : Prop :=
  ((∃ k ∈ p.lineNumbers, t < k) →
    p.getNextLineNumber t ∈ p.lineNumbers ∧ t < p.getNextLineNumber t
    ∧ ∀ k ∈ p.lineNumbers, t < k → p.getNextLineNumber t ≤ k)
  ∧ ((∀ k ∈ p.lineNumbers, k ≤ t) → p.getNextLineNumber t = -1)

/-- The store consistency of the claim: the index holds exactly the line numbers that have
source text; a line number with a parsed statement has source text and is in the index;
and for such a line number (any target a GOTO or IF can jump to) `getNextLineNumber` is
the successor lookup. -/
def Program.consistent (p : Program) : Prop :=
  (∀ n, n ∈ p.lineNumbers ↔ p.sourceLines n ≠ none)
  ∧ (∀ n, p.getParsedStatement n ≠ none → p.sourceLines n ≠ none ∧ n ∈ p.lineNumbers)
  ∧ (∀ t, p.getParsedStatement t ≠ none → p.successorLookup t)

/-- What the calls of `processLine` maintain: the index is strictly ascending and holds
exactly the line numbers with text, every parsed statement belongs to a line with text,
and every parsed statement is of a storable kind. -/
def Program.wellKept (p : Program) : Prop :=
  p.lineNumbers.Pairwise (· < ·)
  ∧ (∀ n, n ∈ p.lineNumbers ↔ p.sourceLines n ≠ none)
  ∧ (∀ n, p.getParsedStatement n ≠ none → p.sourceLines n ≠ none)
  ∧ p.allStorable

/-- A session with a line that fails to parse, a replaced line, a removed line, a RUN and
a LIST. -/
def sampleSession : List (String × Nat) :=
  [("10 GOTO 30", 0), ("20 LET", 0), ("30 END", 0), ("20 PRINT 1", 0), ("RUN", 9),
   ("30", 0), ("LIST", 0), ("FOO", 0)]

/-- No token of the scanner is read by `stoi` as a negative number. This is how the token
scanner delivers a line: a minus sign is a token of its own, never the start of a number
token (the scanner itself is not under `src/`; the property is a hypothesis where it is
needed). -/
def unsignedTokens (scanner : List String) : Bool :=
  scanner.all (fun token =>
    match stoi token with
    | some v => decide (0 ≤ v)
    | none => true)

/-- The statement is a GOTO or an IF. -/
def Statement.isJump : Statement → Bool
  | .GotoStatement _ | .IfStatement _ _ _ _ => true
  | _ => false

/-- The parsed statements of the program include no GOTO and no IF. -/
def Program.noJumps (p : Program) : Prop :=
  ∀ n stmt, p.getParsedStatement n = some stmt → stmt.isJump = false

/-- No line number of the index is negative. -/
def Program.nonnegLines (p : Program) : Prop :=
  ∀ n ∈ p.lineNumbers, 0 ≤ n

/-- The session that enters `10 LET X = 5`, `20 PRINT X`, `30 END`. -/
def letPrintEndSession : List (String × Nat) :=
  [("10 LET X = 5", 0), ("20 PRINT X", 0), ("30 END", 0)]

/-! ## Basic facts about the RUN loop -/

/-- With no loop test left the run is cut off. -/
theorem runLoop_zero (ev : Evaluator) (currentLine : Int) (m : Machine) :
    runLoop ev 0 currentLine m = none := rfl

/-- At `currentLine = -1` the loop test fails and RUN returns the machine as it is. -/
theorem runLoop_sentinel (ev : Evaluator) (fuel : Nat) (m : Machine) :
    runLoop ev (fuel + 1) (-1) m = some m := by
  simp [runLoop]

/-- At any other line the loop body is entered; a stored RUN statement would call
`RunStatement::execute` with the remaining bound. -/
theorem runLoop_succ (ev : Evaluator) (fuel : Nat) (currentLine : Int) (m : Machine)
    (h : currentLine ≠ -1) :
    runLoop ev (fuel + 1) currentLine m =
      match loopBody ev (RunStatement.execute ev fuel) currentLine m with
      | none => none
      | some (.next c m1) => runLoop ev fuel c m1
      | some (.exit m1) => some m1 := by
  simp only [runLoop, if_neg h]
  rfl

/-- RUN has no exit through an exception: when the statement `RUN` comes back, nothing is
thrown. -/
theorem RunStatement_throws_nothing (ev : Evaluator) (run : Machine → Option Machine)
    (m : Machine) (r : Machine × Option Thrown)
    (h : Statement.execute ev run .RunStatement m = some r) : r.2 = none := by
  simp only [Statement.execute] at h
  cases hrun : run m with
  | none => simp [hrun] at h
  | some m1 =>
    simp only [hrun, Option.some.injEq] at h
    rw [← h]

/-! ## C1: a failing statement under RUN -/

/-- C1 (the code evaluated at the failing input). The session `10 PRINT X`, `RUN` stores
`PRINT X` under line 10 and runs it with `X` unset: `processLine` returns from RUN with
nothing thrown and `main` writes nothing. The same holds for the session `10 GOTO 999`,
`RUN`. The statement `PRINT X` typed directly, in contrast, does reach `main`, which
writes the message of the error. -/
theorem C1_run_swallows_failure :
    (mainLoop blankTokens readAtom Expression.eval 10 2
        (Machine.start ["10 PRINT X", "RUN"]) true).map
      (fun r => (r.machine.program.getParsedStatement 10, r.thrown, r.machine.output))
      = some (some (.PrintStatement (.IdentifierExp "X")), none, [])
    ∧ (mainLoop blankTokens readAtom Expression.eval 10 2
        (Machine.start ["10 GOTO 999", "RUN"]) true).map
      (fun r => (r.machine.program.getParsedStatement 10, r.thrown, r.machine.output))
      = some (some (.GotoStatement 999), none, [])
    ∧ (mainLoop blankTokens readAtom Expression.eval 10 1
        (Machine.start ["PRINT X"]) true).map (fun r => r.machine.output)
      = some [Output.text "VARIABLE NOT DEFINED"] := by
  exact ⟨rfl, rfl, rfl⟩

/-! ## C2: GOTO to a line without a parsed statement -/

/-- C2. When the loop of RUN stands at a line `cur` whose statement is `GOTO t` and line
`t` has no parsed statement, the GOTO throws the error "GOTO line does not exist" leaving
the machine as it was, the pass through the loop body ends in `break` with that same
machine, and the run returns it: no further statement is executed and the variable store
(with everything else) is what it was before the GOTO. -/
theorem C2_goto_undefined_line (ev : Evaluator) (run : Machine → Option Machine)
    (fuel : Nat) (cur t : Int) (m : Machine)
    (hcur : cur ≠ -1)
    (hstmt : m.program.getParsedStatement cur = some (.GotoStatement t))
    (htarget : m.program.getParsedStatement t = none) :
    Statement.execute ev run (.GotoStatement t) m
        = some (m, some (.ErrorException "GOTO line does not exist"))
    ∧ loopBody ev run cur m = some (.exit m)
    ∧ runLoop ev (fuel + 1) cur m = some m := by
  have hexec : Statement.execute ev run (.GotoStatement t) m
      = some (m, some (.ErrorException "GOTO line does not exist")) := by
    simp [Statement.execute, htarget]
  have hbody : ∀ run0, loopBody ev run0 cur m = some (.exit m) := by
    intro run0
    simp [loopBody, hstmt, Statement.execute, htarget]
  refine ⟨hexec, hbody run, ?_⟩
  rw [runLoop_succ ev fuel cur m hcur, hbody]

theorem C2_goto_undefined_line_witness :
    Statement.execute Expression.eval (RunStatement.execute Expression.eval 0)
        (.GotoStatement 999) gotoUndefinedMachine
        = some (gotoUndefinedMachine, some (.ErrorException "GOTO line does not exist"))
    ∧ loopBody Expression.eval (RunStatement.execute Expression.eval 0) 10 gotoUndefinedMachine
        = some (.exit gotoUndefinedMachine)
    ∧ runLoop Expression.eval (0 + 1) 10 gotoUndefinedMachine = some gotoUndefinedMachine :=
  C2_goto_undefined_line Expression.eval (RunStatement.execute Expression.eval 0) 0 10 999
    gotoUndefinedMachine (by decide) (by rfl) (by rfl)

/-! ## Jumps under RUN -/

/-- The loop of RUN at a line that is not `-1` and has a parsed statement executes that
statement and goes on as `continueWith` says. -/
theorem runLoop_executes (ev : Evaluator) (fuel : Nat) (line : Int) (stmt : Statement)
    (m : Machine) (hline : line ≠ -1)
    (hstmt : m.program.getParsedStatement line = some stmt) :
    runLoop ev (fuel + 1) line m = continueWith ev fuel line stmt m := by
  rw [runLoop_succ ev fuel line m hline]
  simp only [loopBody, hstmt, continueWith]
  cases hex : stmt.execute ev (RunStatement.execute ev fuel) m with
  | none => rfl
  | some r =>
    obtain ⟨m1, thrown⟩ := r
    cases thrown with
    | none => rfl
    | some th => cases th <;> rfl

/-- For the three operators of IF the comparison computed by `IfStatement::execute` is
the relation `v1 op v2`. -/
theorem ifCondition_iff (op : String) (v1 v2 : Int)
    (hop : op = "<" ∨ op = ">" ∨ op = "=") :
    ifCondition op v1 v2 = true ↔ comparisonHolds op v1 v2 := by
  rcases hop with h | h | h <;> subst h <;> simp [ifCondition, comparisonHolds]

/-- An IF under RUN whose target is not `-1`. The loop of RUN stands at line `cur`, whose
statement is `IF e1 op e2 THEN t` with `op` one of `<`, `>`, `=`; the expressions evaluate
to `v1` and `v2`; line `t` has the parsed statement `s`. If `v1 op v2` holds, the IF
throws the jump to `t` and leaves the machine as it was, and, `t` not being `-1`, the
statement RUN executes next is `s`. If `v1 op v2` does not hold, the IF returns normally
with the machine as it was and RUN goes on at `getNextLineNumber cur`, which ends the run
when it is `-1`. -/
theorem ifStatement_transfers_control (ev : Evaluator) (fuel : Nat) (cur t : Int)
    (e1 e2 : Expression) (op : String) (v1 v2 : Int) (s : Statement) (m : Machine)
    (hcur : cur ≠ -1)
    (hstmt : m.program.getParsedStatement cur = some (.IfStatement e1 op e2 t))
    (hop : op = "<" ∨ op = ">" ∨ op = "=")
    (h1 : ev e1 m.state = .ok v1) (h2 : ev e2 m.state = .ok v2)
    (htarget : m.program.getParsedStatement t = some s) :
    (comparisonHolds op v1 v2 →
      Statement.execute ev (RunStatement.execute ev (fuel + 1)) (.IfStatement e1 op e2 t) m
          = some (m, some (.int t))
      ∧ (t ≠ -1 → runLoop ev (fuel + 2) cur m = continueWith ev fuel t s m))
    ∧ (¬ comparisonHolds op v1 v2 →
      Statement.execute ev (RunStatement.execute ev (fuel + 1)) (.IfStatement e1 op e2 t) m
          = some (m, none)
      ∧ runLoop ev (fuel + 2) cur m = runLoop ev (fuel + 1) (m.program.getNextLineNumber cur) m
      ∧ (m.program.getNextLineNumber cur = -1 → runLoop ev (fuel + 2) cur m = some m)) := by
  constructor
  · intro hc
    have hcond := (ifCondition_iff op v1 v2 hop).2 hc
    have hexec : ∀ run, Statement.execute ev run (.IfStatement e1 op e2 t) m
        = some (m, some (.int t)) := by
      intro run
      simp [Statement.execute, h1, h2, hcond, htarget]
    refine ⟨hexec _, fun ht => ?_⟩
    rw [runLoop_executes ev (fuel + 1) cur _ m hcur hstmt]
    simp only [continueWith, hexec]
    exact runLoop_executes ev fuel t s m ht htarget
  · intro hc
    have hcond : ifCondition op v1 v2 = false := by
      cases hb : ifCondition op v1 v2 with
      | false => rfl
      | true => exact absurd ((ifCondition_iff op v1 v2 hop).1 hb) hc
    have hexec : ∀ run, Statement.execute ev run (.IfStatement e1 op e2 t) m
        = some (m, none) := by
      intro run
      simp [Statement.execute, h1, h2, hcond]
    have hgo : runLoop ev (fuel + 2) cur m
        = runLoop ev (fuel + 1) (m.program.getNextLineNumber cur) m := by
      rw [runLoop_executes ev (fuel + 1) cur _ m hcur hstmt]
      simp only [continueWith, hexec]
    refine ⟨hexec _, hgo, fun hnone => ?_⟩
    rw [hgo, hnone, runLoop_sentinel]

/-- A GOTO under RUN whose target is not `-1`. The loop of RUN stands at line `cur`, whose
statement is `GOTO t`, and line `t` has the parsed statement `s`. The GOTO throws the jump
to `t` and leaves the machine (variable store included) as it was; the loop variable
becomes `t`; the statement RUN executes next is `s`, on that unchanged machine, after
which the run goes on from line `t`: at `getNextLineNumber t` when `s` returns normally. -/
theorem gotoStatement_transfers_control (ev : Evaluator) (run : Machine → Option Machine)
    (fuel : Nat) (cur t : Int) (s : Statement) (m : Machine)
    (hcur : cur ≠ -1)
    (hstmt : m.program.getParsedStatement cur = some (.GotoStatement t))
    (htarget : m.program.getParsedStatement t = some s)
    (ht : t ≠ -1) :
    Statement.execute ev run (.GotoStatement t) m = some (m, some (.int t))
    ∧ loopBody ev run cur m = some (.next t m)
    ∧ runLoop ev (fuel + 2) cur m = continueWith ev fuel t s m
    ∧ (∀ m1, Statement.execute ev (RunStatement.execute ev fuel) s m = some (m1, none) →
        runLoop ev (fuel + 2) cur m = runLoop ev fuel (m1.program.getNextLineNumber t) m1) := by
  have hexec : ∀ run0, Statement.execute ev run0 (.GotoStatement t) m
      = some (m, some (.int t)) := by
    intro run0
    simp [Statement.execute, htarget]
  have hgo : runLoop ev (fuel + 2) cur m = continueWith ev fuel t s m := by
    rw [runLoop_executes ev (fuel + 1) cur _ m hcur hstmt]
    simp only [continueWith, hexec]
    exact runLoop_executes ev fuel t s m ht htarget
  refine ⟨hexec run, ?_, hgo, ?_⟩
  · simp [loopBody, hstmt, hexec]
  · intro m1 hs
    rw [hgo]
    simp only [continueWith, hs]

/-! ## C5 and C6: a line whose statement cannot be built -/

/-- A token that `stoi` converts is none of the keywords `processLine` looks for. -/
theorem stoi_some_not_keyword (token : String) (n : Int) (h : stoi token = some n) :
    token ≠ "RUN" ∧ token ≠ "LIST" ∧ token ≠ "CLEAR" ∧ token ≠ "QUIT" ∧ token ≠ "HELP"
    ∧ token ≠ "LET" ∧ token ≠ "PRINT" ∧ token ≠ "INPUT" := by
  have hkey : ∀ k : String, stoi k = none → token ≠ k := by
    intro k hk e
    rw [e, hk] at h
    exact Option.noConfusion h
  exact ⟨hkey _ rfl, hkey _ rfl, hkey _ rfl, hkey _ rfl, hkey _ rfl, hkey _ rfl, hkey _ rfl,
    hkey _ rfl⟩

/-- A line whose first token is a number is answered with "Invalid command" when it is
handled as a direct command. -/
theorem directCommand_number (tokenize : Tokenizer) (readE : ExpReader) (ev : Evaluator)
    (fuel : Nat) (line firstToken : String) (scanner : List String) (n : Int) (m : Machine)
    (running : Bool)
    (htok : tokenize line = firstToken :: scanner) (hnum : stoi firstToken = some n) :
    directCommand tokenize readE ev fuel line m running
      = some ⟨m, running, some (.ErrorException "Invalid command")⟩ := by
  obtain ⟨h1, h2, h3, h4, h5, h6, h7, h8⟩ := stoi_some_not_keyword firstToken n hnum
  simp [directCommand, htok, h1, h2, h3, h4, h5, h6, h7, h8, newDirectStatement,
    executeDirect]

/-- What `processLine` does with a numbered line whose statement cannot be built: the
text is already stored when the constructor fails, the failure is caught by the
`catch (...)` meant for `stoi`, and the line ends as the direct command "Invalid command". -/
theorem processLine_construction_fails (tokenize : Tokenizer) (readE : ExpReader)
    (ev : Evaluator) (fuel : Nat) (line firstToken stmtType msg : String)
    (scanner stmtScanner : List String) (n : Int) (m : Machine) (running : Bool)
    (htok : tokenize line = firstToken :: scanner) (hnum : stoi firstToken = some n)
    (hmore : scanner ≠ [])
    (hrest : tokenize (restOfLine scanner) = stmtType :: stmtScanner)
    (hfail : newStoredStatement tokenize readE stmtType stmtScanner = .error msg) :
    processLine tokenize readE ev fuel line m running
      = some ⟨{ m with program := m.program.addSourceLine n line }, running,
          some (.ErrorException "Invalid command")⟩ := by
  simp only [processLine, htok, hnum, if_neg hmore, hrest, hfail]
  exact directCommand_number tokenize readE ev fuel line firstToken scanner n _ running htok hnum

/-- C5 (counterexample). The line `10 LET` on the empty program: the constructor of LET
fails, `processLine` raises an error, and the program has changed: line 10 now has the
source text `10 LET` and is in the line index. -/
theorem C5_stored_despite_failure_counterexample :
    newStoredStatement blankTokens readAtom "LET" []
        = .error "LET requires variable and expression"
    ∧ (Machine.start []).program.getSourceLine 10 = ""
    ∧ (Machine.start []).program.lineNumbers = []
    ∧ (processLine blankTokens readAtom Expression.eval 0 "10 LET" (Machine.start []) true).map
        (fun r => (r.thrown, r.machine.program.getSourceLine 10, r.machine.program.lineNumbers))
      = some (some (.ErrorException "Invalid command"), "10 LET", [10]) := by
  exact ⟨rfl, rfl, rfl, rfl⟩

/-- C5 (amended). A numbered line `n` whose statement cannot be built makes `processLine`
raise an error with the variable store, the input and the output as they were, and with
the program changed at line `n` only, exactly as `addSourceLine n line` changes it (the
text is stored, `n` is in the line index, the former parsed statement of `n` is gone).
A direct command whose statement cannot be built makes `processLine` raise the error of
the constructor and leaves the whole machine, program and variable store included, as it
was. -/
theorem C5_construction_failure_effects (tokenize : Tokenizer) (readE : ExpReader)
    (ev : Evaluator) (fuel : Nat) (line : String) (m : Machine) (running : Bool) :
    (∀ (firstToken stmtType msg : String) (scanner stmtScanner : List String) (n : Int),
      tokenize line = firstToken :: scanner → stoi firstToken = some n → scanner ≠ [] →
      tokenize (restOfLine scanner) = stmtType :: stmtScanner →
      newStoredStatement tokenize readE stmtType stmtScanner = .error msg →
      ∃ r, processLine tokenize readE ev fuel line m running = some r
        ∧ r.thrown = some (.ErrorException "Invalid command")
        ∧ r.machine.state = m.state
        ∧ r.machine.program = m.program.addSourceLine n line
        ∧ r.machine.input = m.input ∧ r.machine.output = m.output)
    ∧ (∀ (command msg : String) (scanner : List String),
      tokenize line = command :: scanner → stoi command = none →
      command ≠ "RUN" → command ≠ "LIST" → command ≠ "CLEAR" → command ≠ "QUIT" →
      command ≠ "HELP" →
      newDirectStatement readE command scanner = .error msg →
      processLine tokenize readE ev fuel line m running
        = some ⟨m, running, some (.ErrorException msg)⟩) := by
  constructor
  · intro firstToken stmtType msg scanner stmtScanner n htok hnum hmore hrest hfail
    exact ⟨_, processLine_construction_fails tokenize readE ev fuel line firstToken stmtType msg
      scanner stmtScanner n m running htok hnum hmore hrest hfail, rfl, rfl, rfl, rfl, rfl⟩
  · intro command msg scanner htok hnum h1 h2 h3 h4 h5 hfail
    simp [processLine, htok, hnum, directCommand, h1, h2, h3, h4, h5, hfail, executeDirect]

theorem C5_construction_failure_effects_witness :
    (∃ r, processLine blankTokens readAtom Expression.eval 0 "10 LET" (Machine.start []) true
        = some r
      ∧ r.thrown = some (.ErrorException "Invalid command")
      ∧ r.machine.state = (Machine.start []).state
      ∧ r.machine.program = (Machine.start []).program.addSourceLine 10 "10 LET"
      ∧ r.machine.input = (Machine.start []).input
      ∧ r.machine.output = (Machine.start []).output)
    ∧ processLine blankTokens readAtom Expression.eval 0 "LET X" (Machine.start []) true
      = some ⟨Machine.start [], true, some (.ErrorException "LET requires = and expression")⟩ :=
  have h := C5_construction_failure_effects blankTokens readAtom Expression.eval 0
  ⟨(h "10 LET" (Machine.start []) true).1 "10" "LET" "LET requires variable and expression"
      ["LET"] [] 10 rfl rfl (by decide) rfl rfl,
   (h "LET X" (Machine.start []) true).2 "LET" "LET requires = and expression" ["X"] rfl rfl
      (by decide) (by decide) (by decide) (by decide) (by decide) rfl⟩

/-- C6. A numbered line `n` followed by statement text whose statement cannot be built:
`processLine` comes back with an exception raised to its caller (the `ErrorException`
"Invalid command"), and afterwards `getSourceLine n` is the line that was entered. -/
theorem C6_text_stored_on_parse_failure (tokenize : Tokenizer) (readE : ExpReader)
    (ev : Evaluator) (fuel : Nat) (line firstToken stmtType msg : String)
    (scanner stmtScanner : List String) (n : Int) (m : Machine) (running : Bool)
    (htok : tokenize line = firstToken :: scanner) (hnum : stoi firstToken = some n)
    (hmore : scanner ≠ [])
    (hrest : tokenize (restOfLine scanner) = stmtType :: stmtScanner)
    (hfail : newStoredStatement tokenize readE stmtType stmtScanner = .error msg) :
    ∃ r, processLine tokenize readE ev fuel line m running = some r
      ∧ r.thrown = some (.ErrorException "Invalid command")
      ∧ r.machine.program.getSourceLine n = line := by
  refine ⟨_, processLine_construction_fails tokenize readE ev fuel line firstToken stmtType msg
    scanner stmtScanner n m running htok hnum hmore hrest hfail, rfl, ?_⟩
  simp [Program.getSourceLine, Program.addSourceLine]

theorem C6_text_stored_on_parse_failure_witness :
    ∃ r, processLine blankTokens readAtom Expression.eval 0 "20 GOTO somewhere"
        (Machine.start []) true = some r
      ∧ r.thrown = some (.ErrorException "Invalid command")
      ∧ r.machine.program.getSourceLine 20 = "20 GOTO somewhere" :=
  C6_text_stored_on_parse_failure blankTokens readAtom Expression.eval 0 "20 GOTO somewhere"
    "20" "GOTO" "GOTO requires valid line number" ["GOTO", "somewhere"] ["somewhere"] 20
    (Machine.start []) true rfl rfl (by decide) rfl rfl

/-! ## C7: RUN leaves the program alone -/

/-- A storable statement always comes back, whatever it throws, and hands back the program
it was given. -/
theorem storable_execute_program (ev : Evaluator) (run : Machine → Option Machine)
    (stmt : Statement) (m : Machine) (hs : stmt.storable = true) :
    ∃ m1 thrown, stmt.execute ev run m = some (m1, thrown) ∧ m1.program = m.program := by
  cases stmt with
  | RemStatement => exact ⟨m, none, rfl, rfl⟩
  | LetStatement varName exp =>
    cases h : ev exp m.state with
    | error msg =>
      exact ⟨m, some (.ErrorException msg), by simp [Statement.execute, h], rfl⟩
    | ok v =>
      exact ⟨{ m with state := m.state.setValue varName v }, none,
        by simp [Statement.execute, h], rfl⟩
  | PrintStatement exp =>
    cases h : ev exp m.state with
    | error msg =>
      exact ⟨m, some (.ErrorException msg), by simp [Statement.execute, h], rfl⟩
    | ok v =>
      exact ⟨{ m with output := m.output ++ [Output.value v] }, none,
        by simp [Statement.execute, h], rfl⟩
  | InputStatement varName =>
    cases h : stoi (getline m.input).1 with
    | none =>
      exact ⟨{ m with input := (getline m.input).2 },
        some (.ErrorException "INPUT requires integer value"),
        by simp [Statement.execute, h], rfl⟩
    | some v =>
      exact ⟨{ m with input := (getline m.input).2, state := m.state.setValue varName v }, none,
        by simp [Statement.execute, h], rfl⟩
  | EndStatement => exact ⟨m, some (.runtime_error "END"), rfl, rfl⟩
  | GotoStatement lineNumber =>
    cases h : m.program.getParsedStatement lineNumber with
    | none =>
      exact ⟨m, some (.ErrorException "GOTO line does not exist"),
        by simp [Statement.execute, h], rfl⟩
    | some t => exact ⟨m, some (.int lineNumber), by simp [Statement.execute, h], rfl⟩
  | IfStatement exp1 op exp2 lineNumber =>
    cases h1 : ev exp1 m.state with
    | error msg =>
      exact ⟨m, some (.ErrorException msg), by simp [Statement.execute, h1], rfl⟩
    | ok v1 =>
      cases h2 : ev exp2 m.state with
      | error msg =>
        exact ⟨m, some (.ErrorException msg), by simp [Statement.execute, h1, h2], rfl⟩
      | ok v2 =>
        cases hc : ifCondition op v1 v2 with
        | false => exact ⟨m, none, by simp [Statement.execute, h1, h2, hc], rfl⟩
        | true =>
          cases h : m.program.getParsedStatement lineNumber with
          | none =>
            exact ⟨m, some (.ErrorException "IF THEN line does not exist"),
              by simp [Statement.execute, h1, h2, hc, h], rfl⟩
          | some t =>
            exact ⟨m, some (.int lineNumber), by simp [Statement.execute, h1, h2, hc, h], rfl⟩
  | RunStatement => simp [Statement.storable] at hs
  | ListStatement => simp [Statement.storable] at hs
  | ClearStatement => simp [Statement.storable] at hs
  | QuitStatement => simp [Statement.storable] at hs

/-- One pass through the loop body over storable statements comes back with the program it
started with. -/
theorem loopBody_program (ev : Evaluator) (run : Machine → Option Machine) (cur : Int)
    (m : Machine) (hp : m.program.allStorable) :
    ∃ c, loopBody ev run cur m = some c ∧ c.machine.program = m.program := by
  cases hstmt : m.program.getParsedStatement cur with
  | none =>
    exact ⟨.next (m.program.getNextLineNumber cur) m, by simp only [loopBody, hstmt], rfl⟩
  | some stmt =>
    obtain ⟨m1, thrown, hex, hprog⟩ := storable_execute_program ev run stmt m (hp cur stmt hstmt)
    cases thrown with
    | none =>
      exact ⟨.next (m1.program.getNextLineNumber cur) m1, by simp only [loopBody, hstmt, hex],
        hprog⟩
    | some th =>
      cases th with
      | ErrorException msg => exact ⟨.exit m1, by simp only [loopBody, hstmt, hex], hprog⟩
      | runtime_error msg => exact ⟨.exit m1, by simp only [loopBody, hstmt, hex], hprog⟩
      | int g => exact ⟨.next g m1, by simp only [loopBody, hstmt, hex], hprog⟩

/-- Any number of passes over storable statements keeps the program. -/
theorem loopPasses_program (ev : Evaluator) (run : Machine → Option Machine) (passes : Nat) :
    ∀ c : LoopCtl, c.machine.program.allStorable →
      ∃ c1, loopPasses ev run passes c = some c1 ∧ c1.machine.program = c.machine.program := by
  induction passes with
  | zero => intro c _; exact ⟨c, rfl, rfl⟩
  | succ k ih =>
    intro c hp
    cases c with
    | exit m => exact ⟨_, rfl, rfl⟩
    | next cur m =>
      by_cases hcur : cur = -1
      · exact ⟨.exit m, by simp [loopPasses, hcur], rfl⟩
      · obtain ⟨c0, hbody, hprog0⟩ := loopBody_program ev run cur m hp
        have hp0 : c0.machine.program.allStorable := by rw [hprog0]; exact hp
        obtain ⟨c1, hrest, hprog1⟩ := ih c0 hp0
        refine ⟨c1, ?_, ?_⟩
        · simp only [loopPasses, if_neg hcur, hbody, hrest]
        · rw [hprog1, hprog0]; rfl

/-- A run over storable statements that comes back, comes back with the program it
started with. -/
theorem runLoop_program (ev : Evaluator) (fuel : Nat) :
    ∀ (cur : Int) (m m1 : Machine), m.program.allStorable →
      runLoop ev fuel cur m = some m1 → m1.program = m.program := by
  induction fuel with
  | zero => intro cur m m1 _ h; simp [runLoop] at h
  | succ k ih =>
    intro cur m m1 hp h
    by_cases hcur : cur = -1
    · subst hcur
      rw [runLoop_sentinel] at h
      exact (Option.some.inj h) ▸ rfl
    · rw [runLoop_succ ev k cur m hcur] at h
      obtain ⟨c0, hbody, hprog0⟩ := loopBody_program ev (RunStatement.execute ev k) cur m hp
      rw [hbody] at h
      cases c0 with
      | exit m0 =>
        simp only [Option.some.injEq] at h
        rw [← h]; exact hprog0
      | next c m0 =>
        have hp0 : m0.program.allStorable := by
          have : m0.program = m.program := hprog0
          rw [this]; exact hp
        have := ih c m0 m1 hp0 h
        rw [this]; exact hprog0

/-- C7. In a program all of whose parsed statements are REM, LET, PRINT, INPUT, END, GOTO
or IF, for every evaluator, variable store, input and output: after any number of passes
of the loop of RUN, wherever they start and however they end (running on, loop left at
`-1`, END or a failure), the program is the one RUN was given, and so is the program of
every completed RUN: same source text and same parsed statement for every line, same
line numbers. -/
theorem C7_run_keeps_program (ev : Evaluator) (run : Machine → Option Machine) (m : Machine)
    (hp : m.program.allStorable) :
    (∀ (passes : Nat) (cur : Int), ∃ c, loopPasses ev run passes (.next cur m) = some c
        ∧ c.machine.program = m.program)
    ∧ (∀ (fuel : Nat) (m1 : Machine), RunStatement.execute ev fuel m = some m1 →
        m1.program = m.program
        ∧ (∀ n, m1.program.getSourceLine n = m.program.getSourceLine n)
        ∧ (∀ n, m1.program.getParsedStatement n = m.program.getParsedStatement n)
        ∧ m1.program.lineNumbers = m.program.lineNumbers) := by
  constructor
  · intro passes cur
    exact loopPasses_program ev run passes (.next cur m) hp
  · intro fuel m1 h
    have hprog : m1.program = m.program :=
      runLoop_program ev fuel _ { m with state := m.state.Clear } m1 hp h
    refine ⟨hprog, ?_, ?_, ?_⟩
    · intro n; rw [hprog]
    · intro n; rw [hprog]
    · rw [hprog]

/-- The two statements of `inputEndMachine` are storable. -/
theorem inputEndMachine_allStorable : inputEndMachine.program.allStorable := by
  intro n stmt h
  simp only [inputEndMachine, Program.getParsedStatement, Program.setParsedStatement,
    Program.addSourceLine, Program.empty] at h
  split_ifs at h
  · cases h; rfl
  · cases h; rfl

theorem C7_run_keeps_program_witness :
    (∀ (passes : Nat) (cur : Int), ∃ c,
        loopPasses Expression.eval (RunStatement.execute Expression.eval 0) passes
          (.next cur inputEndMachine) = some c
        ∧ c.machine.program = inputEndMachine.program)
    ∧ (∀ (fuel : Nat) (m1 : Machine),
        RunStatement.execute Expression.eval fuel inputEndMachine = some m1 →
        m1.program = inputEndMachine.program
        ∧ (∀ n, m1.program.getSourceLine n = inputEndMachine.program.getSourceLine n)
        ∧ (∀ n, m1.program.getParsedStatement n = inputEndMachine.program.getParsedStatement n)
        ∧ m1.program.lineNumbers = inputEndMachine.program.lineNumbers) :=
  C7_run_keeps_program Expression.eval (RunStatement.execute Expression.eval 0) inputEndMachine
    inputEndMachine_allStorable

/-! ## C8: RUN starts from an empty variable store -/

/-- C8. RUN on two machines that differ in the variable store only (same program, same
input waiting, same output so far) gives the same result for every bound on the run:
either both runs are still going when the bound is reached, or both end with the same
machine, hence the same output and the same final variable store. -/
theorem C8_run_ignores_prior_store (ev : Evaluator) (fuel : Nat) (s1 s2 : EvalState)
    (p : Program) (input : List String) (output : List Output) :
    RunStatement.execute ev fuel ⟨s1, p, input, output⟩
      = RunStatement.execute ev fuel ⟨s2, p, input, output⟩ := by
  simp only [RunStatement.execute, EvalState.Clear]

/-! ## C9: INPUT and `stoi` -/

/-- C9 (the code evaluated at the failing input). INPUT X given the line `12abc`, which is
not the text of an integer, raises no error and stores 12 under X; `3.5` is likewise read
as 3, while `abc` and the empty line are refused. -/
theorem C9_input_accepts_integer_prefix (ev : Evaluator) (run : Machine → Option Machine)
    (state : EvalState) (p : Program) :
    Statement.execute ev run (.InputStatement "X") ⟨state, p, ["12abc"], []⟩
      = some (⟨state.setValue "X" 12, p, [], []⟩, none)
    ∧ stoi "3.5" = some 3 ∧ stoi "abc" = none ∧ stoi "" = none := by
  refine ⟨?_, by decide, by decide, by decide⟩
  have h : stoi "12abc" = some 12 := by decide
  simp [Statement.execute, getline, h]

/-! ## C10: source text of a line -/

/-- C10. In every program state, for every line number `n` and text `t`: after
`addSourceLine n t`, `getSourceLine n` is `t`; after `removeSourceLine n` on top of that,
`getSourceLine n` is the empty string. -/
theorem C10_add_get_remove (p : Program) (n : Int) (t : String) :
    (p.addSourceLine n t).getSourceLine n = t
    ∧ ((p.addSourceLine n t).removeSourceLine n).getSourceLine n = "" := by
  simp [Program.getSourceLine, Program.addSourceLine, Program.removeSourceLine]

/-! ## The line index of a reachable program -/

/-- Membership after `std::set::insert`. -/
theorem mem_setInsert (n k : Int) (l : List Int) : k ∈ setInsert n l ↔ k = n ∨ k ∈ l := by
  induction l with
  | nil => simp [setInsert]
  | cons x xs ih =>
    simp only [setInsert]
    split_ifs with h1 h2
    · simp
    · subst h2; simp
    · simp only [List.mem_cons, ih]
      constructor
      · rintro (h | h | h)
        · exact Or.inr (Or.inl h)
        · exact Or.inl h
        · exact Or.inr (Or.inr h)
      · rintro (h | h | h)
        · exact Or.inr (Or.inl h)
        · exact Or.inl h
        · exact Or.inr (Or.inr h)

/-- `std::set::insert` keeps the iteration order strictly ascending. -/
theorem pairwise_setInsert (n : Int) (l : List Int) (h : l.Pairwise (· < ·)) :
    (setInsert n l).Pairwise (· < ·) := by
  induction l with
  | nil => simp [setInsert]
  | cons x xs ih =>
    have hx := List.pairwise_cons.1 h
    simp only [setInsert]
    split_ifs with h1 h2
    · refine List.pairwise_cons.2 ⟨?_, h⟩
      intro a ha
      rcases List.mem_cons.1 ha with e | e
      · rw [e]; exact h1
      · exact lt_trans h1 (hx.1 a e)
    · exact h
    · refine List.pairwise_cons.2 ⟨?_, ih hx.2⟩
      intro a ha
      rcases (mem_setInsert n a xs).1 ha with e | e
      · rw [e]; omega
      · exact hx.1 a e

/-- A strictly ascending list has no repetition. -/
theorem nodup_of_ascending (l : List Int) (h : l.Pairwise (· < ·)) : l.Nodup :=
  List.Pairwise.imp (fun hab => ne_of_lt hab) h

/-- The loop of `listAll` over lines that all have text writes their texts in order and
leaves `sourceLines` as it is. -/
theorem listLoop_of_text (l : List Int) (src : Int → Option String) (out : List Output)
    (h : ∀ n ∈ l, src n ≠ none) :
    listLoop l src out
      = (src, out ++ l.map (fun n => Output.text (match src n with
          | some line => line
          | none => ""))) := by
  induction l generalizing out with
  | nil => simp [listLoop]
  | cons x xs ih =>
    have hx : src x ≠ none := h x (List.mem_cons_self x xs)
    cases hsx : src x with
    | none => exact absurd hsx hx
    | some line =>
      simp only [listLoop, hsx]
      rw [ih (out ++ [Output.text line]) (fun n hn => h n (List.mem_cons_of_mem x hn))]
      simp [hsx]

/-- One call keeps the index strictly ascending and equal to the set of lines with text. -/
theorem applyOp_index (p : Program) (op : ProgramOp)
    (hs : p.lineNumbers.Pairwise (· < ·))
    (hm : ∀ n, n ∈ p.lineNumbers ↔ p.sourceLines n ≠ none) :
    (p.applyOp op).lineNumbers.Pairwise (· < ·)
    ∧ ∀ n, n ∈ (p.applyOp op).lineNumbers ↔ (p.applyOp op).sourceLines n ≠ none := by
  cases op with
  | clear => simp [Program.applyOp, Program.clear]
  | addSourceLine k line =>
    refine ⟨pairwise_setInsert k _ hs, fun n => ?_⟩
    simp only [Program.applyOp, Program.addSourceLine, mem_setInsert]
    by_cases hnk : n = k
    · simp [hnk]
    · simp [hnk, hm n]
  | removeSourceLine k =>
    refine ⟨List.Pairwise.sublist (List.erase_sublist k _) hs, fun n => ?_⟩
    simp only [Program.applyOp, Program.removeSourceLine]
    rw [(nodup_of_ascending _ hs).mem_erase_iff]
    by_cases hnk : n = k
    · simp [hnk]
    · simp [hnk, hm n]
  | setParsedStatement k stmt => exact ⟨hs, hm⟩
  | listAll =>
    have hl := listLoop_of_text p.lineNumbers p.sourceLines [] (fun n hn => (hm n).1 hn)
    simp only [Program.applyOp, Program.listAll, hl]
    exact ⟨hs, hm⟩

/-- Calls from a program with a well-kept index lead to a program with a well-kept index. -/
theorem foldl_applyOp_index (ops : List ProgramOp) :
    ∀ p : Program, p.lineNumbers.Pairwise (· < ·) →
      (∀ n, n ∈ p.lineNumbers ↔ p.sourceLines n ≠ none) →
      (ops.foldl Program.applyOp p).lineNumbers.Pairwise (· < ·)
      ∧ ∀ n, n ∈ (ops.foldl Program.applyOp p).lineNumbers
          ↔ (ops.foldl Program.applyOp p).sourceLines n ≠ none := by
  induction ops with
  | nil => intro p hs hm; exact ⟨hs, hm⟩
  | cons op rest ih =>
    intro p hs hm
    have h := applyOp_index p op hs hm
    exact ih (p.applyOp op) h.1 h.2

/-- In every program state reached from the constructed `Program`, the index is strictly
ascending and holds exactly the line numbers that have source text. -/
theorem afterOps_index (ops : List ProgramOp) :
    (Program.afterOps ops).lineNumbers.Pairwise (· < ·)
    ∧ ∀ n, n ∈ (Program.afterOps ops).lineNumbers
        ↔ (Program.afterOps ops).sourceLines n ≠ none :=
  foldl_applyOp_index ops Program.empty (by simp [Program.empty]) (by simp [Program.empty])

/-- The text kept for a line follows the calls one by one. -/
theorem foldl_applyOp_text (n : Int) (ops : List ProgramOp) :
    ∀ p : Program, p.lineNumbers.Pairwise (· < ·) →
      (∀ k, k ∈ p.lineNumbers ↔ p.sourceLines k ≠ none) →
      (ops.foldl Program.applyOp p).sourceLines n
        = ops.foldl (ProgramOp.textStep n) (p.sourceLines n) := by
  induction ops with
  | nil => intro p _ _; rfl
  | cons op rest ih =>
    intro p hs hm
    have h := applyOp_index p op hs hm
    simp only [List.foldl_cons]
    rw [ih (p.applyOp op) h.1 h.2]
    congr 1
    cases op with
    | clear => rfl
    | addSourceLine k line =>
      simp only [Program.applyOp, Program.addSourceLine, ProgramOp.textStep]
      by_cases hk : n = k
      · simp [hk]
      · have hk2 : ¬ k = n := fun e => hk e.symm
        simp [hk, hk2]
    | removeSourceLine k =>
      simp only [Program.applyOp, Program.removeSourceLine, ProgramOp.textStep]
      by_cases hk : n = k
      · simp [hk]
      · have hk2 : ¬ k = n := fun e => hk e.symm
        simp [hk, hk2]
    | setParsedStatement k stmt => rfl
    | listAll =>
      have hl := listLoop_of_text p.lineNumbers p.sourceLines [] (fun k hk => (hm k).1 hk)
      simp only [Program.applyOp, Program.listAll, hl, ProgramOp.textStep]

/-! ## C11: LIST -/

/-- C11. After any sequence of `Program` calls on a fresh program (sequences of
`addSourceLine` / `removeSourceLine` among them), `listAll` writes, after what was written
before, one line per entry of the index: the source text of that line number. The index
is strictly ascending (so no line is listed twice and the order is the numeric order
whatever the order of the calls), it holds exactly the line numbers that have text, the
text of a line is its current text as the calls determine it (none for a removed line,
which is therefore not listed), and `listAll` leaves the program as it is. Adding 30, 10,
20 lists 10, 20, 30. -/
theorem C11_listAll_ascending (ops : List ProgramOp) (out : List Output) :
    ((Program.afterOps ops).listAll out).2
      = out ++ (Program.afterOps ops).lineNumbers.map
          (fun n => Output.text ((Program.afterOps ops).getSourceLine n))
    ∧ (Program.afterOps ops).lineNumbers.Pairwise (· < ·)
    ∧ (∀ n, n ∈ (Program.afterOps ops).lineNumbers ↔ currentText n ops ≠ none)
    ∧ (∀ n, (Program.afterOps ops).sourceLines n = currentText n ops)
    ∧ ((Program.afterOps ops).listAll out).1 = Program.afterOps ops
    ∧ ((Program.afterOps [.addSourceLine 30 "30 REM c", .addSourceLine 10 "10 REM a",
          .addSourceLine 20 "20 REM b"]).listAll []).2
        = [Output.text "10 REM a", Output.text "20 REM b", Output.text "30 REM c"] := by
  have hidx := afterOps_index ops
  have htext : ∀ n, (Program.afterOps ops).sourceLines n = currentText n ops := by
    intro n
    exact foldl_applyOp_text n ops Program.empty (by simp [Program.empty])
      (by simp [Program.empty])
  have hl := listLoop_of_text (Program.afterOps ops).lineNumbers
    (Program.afterOps ops).sourceLines out (fun n hn => (hidx.2 n).1 hn)
  refine ⟨?_, hidx.1, ?_, htext, ?_, rfl⟩
  · simp only [Program.listAll, hl, Program.getSourceLine]
  · intro n
    rw [← htext n]
    exact hidx.2 n
  · simp only [Program.listAll, hl]

/-! ## C12: re-adding a line -/

/-- C12. In every program state, whatever text and parsed statement line `n` has: after
`addSourceLine n t2`, `getSourceLine n` is `t2` and `getParsedStatement n` is none (the
former statement is gone); after `setParsedStatement n s2` on top of that,
`getParsedStatement n` is `s2` and the text is still `t2`. -/
theorem C12_readd_replaces (p : Program) (n : Int) (t2 : String) (s2 : Statement) :
    (p.addSourceLine n t2).getSourceLine n = t2
    ∧ (p.addSourceLine n t2).getParsedStatement n = none
    ∧ ((p.addSourceLine n t2).setParsedStatement n s2).getParsedStatement n = some s2
    ∧ ((p.addSourceLine n t2).setParsedStatement n s2).getSourceLine n = t2 := by
  simp [Program.getSourceLine, Program.getParsedStatement, Program.addSourceLine,
    Program.setParsedStatement]

/-! ## C13 and C14: next and first line number -/

/-- `find` fails on a number that is not in the index. -/
theorem nextAfter_not_mem (n : Int) (l : List Int) (h : n ∉ l) : nextAfter n l = -1 := by
  induction l with
  | nil => rfl
  | cons x xs ih =>
    have hx : ¬ x = n := fun e => h (e ▸ List.mem_cons_self x xs)
    simp only [nextAfter, if_neg hx]
    exact ih (fun hn => h (List.mem_cons_of_mem x hn))

/-- In a strictly ascending index the element after `n` is the least element above `n`, and
there is none when `n` is the greatest. -/
theorem nextAfter_ascending (n : Int) (l : List Int) (hs : l.Pairwise (· < ·)) (hn : n ∈ l) :
    ((∃ k ∈ l, n < k) →
      nextAfter n l ∈ l ∧ n < nextAfter n l ∧ ∀ k ∈ l, n < k → nextAfter n l ≤ k)
    ∧ ((∀ k ∈ l, k ≤ n) → nextAfter n l = -1) := by
  induction l with
  | nil => simp at hn
  | cons x xs ih =>
    have hx := List.pairwise_cons.1 hs
    by_cases hxn : x = n
    · subst hxn
      cases xs with
      | nil =>
        refine ⟨?_, fun _ => by simp [nextAfter]⟩
        rintro ⟨k, hk, hlt⟩
        simp only [List.mem_singleton] at hk
        omega
      | cons y ys =>
        have hy : x < y := hx.1 y (List.mem_cons_self y ys)
        refine ⟨fun _ => ?_, fun hall => ?_⟩
        · simp only [nextAfter, if_true]
          refine ⟨List.mem_cons_of_mem x (List.mem_cons_self y ys), hy, ?_⟩
          intro k hk hlt
          rcases List.mem_cons.1 hk with e | e
          · omega
          · rcases List.mem_cons.1 e with e2 | e2
            · omega
            · exact le_of_lt ((List.pairwise_cons.1 hx.2).1 k e2)
        · have := hall y (List.mem_cons_of_mem x (List.mem_cons_self y ys))
          omega
    · have hnxs : n ∈ xs := by
        rcases List.mem_cons.1 hn with e | e
        · exact absurd e.symm hxn
        · exact e
      have hlt : x < n := hx.1 n hnxs
      have ih2 := ih hx.2 hnxs
      simp only [nextAfter, if_neg hxn]
      refine ⟨?_, ?_⟩
      · rintro ⟨k, hk, hnk⟩
        have hkxs : k ∈ xs := by
          rcases List.mem_cons.1 hk with e | e
          · omega
          · exact e
        obtain ⟨h1, h2, h3⟩ := ih2.1 ⟨k, hkxs, hnk⟩
        refine ⟨List.mem_cons_of_mem x h1, h2, ?_⟩
        intro j hj hnj
        rcases List.mem_cons.1 hj with e | e
        · omega
        · exact h3 j e hnj
      · intro hall
        exact ih2.2 (fun k hk => hall k (List.mem_cons_of_mem x hk))

/-- C13. In every program state reached from the constructed `Program` and for every line
number `n`: if `n` is in the index and some line number of the index is greater than `n`,
`getNextLineNumber n` is a line number of the index, greater than `n`, and no line number
of the index greater than `n` is below it; if `n` is the greatest line number of the
index, or is not in the index, `getNextLineNumber n` is `-1`. The index holds exactly the
line numbers that have source text. -/
theorem C13_next_line_number (ops : List ProgramOp) (n : Int) :
    (n ∈ (Program.afterOps ops).lineNumbers →
      (∃ k ∈ (Program.afterOps ops).lineNumbers, n < k) →
      (Program.afterOps ops).getNextLineNumber n ∈ (Program.afterOps ops).lineNumbers
      ∧ n < (Program.afterOps ops).getNextLineNumber n
      ∧ ∀ k ∈ (Program.afterOps ops).lineNumbers, n < k →
          (Program.afterOps ops).getNextLineNumber n ≤ k)
    ∧ (n ∈ (Program.afterOps ops).lineNumbers →
      (∀ k ∈ (Program.afterOps ops).lineNumbers, k ≤ n) →
      (Program.afterOps ops).getNextLineNumber n = -1)
    ∧ (n ∉ (Program.afterOps ops).lineNumbers →
      (Program.afterOps ops).getNextLineNumber n = -1)
    ∧ (∀ k, k ∈ (Program.afterOps ops).lineNumbers
        ↔ (Program.afterOps ops).sourceLines k ≠ none) := by
  have hs := (afterOps_index ops).1
  refine ⟨fun hn hex => ?_, fun hn hall => ?_, fun hn => ?_, (afterOps_index ops).2⟩
  · exact (nextAfter_ascending n _ hs hn).1 hex
  · exact (nextAfter_ascending n _ hs hn).2 hall
  · exact nextAfter_not_mem n _ hn

theorem C13_next_line_number_witness :
    ((Program.afterOps letPrintEndOps).getNextLineNumber 10
        ∈ (Program.afterOps letPrintEndOps).lineNumbers
      ∧ (10 : Int) < (Program.afterOps letPrintEndOps).getNextLineNumber 10
      ∧ ∀ k ∈ (Program.afterOps letPrintEndOps).lineNumbers, 10 < k →
          (Program.afterOps letPrintEndOps).getNextLineNumber 10 ≤ k)
    ∧ (Program.afterOps letPrintEndOps).getNextLineNumber 30 = -1
    ∧ (Program.afterOps letPrintEndOps).getNextLineNumber 15 = -1 :=
  ⟨(C13_next_line_number letPrintEndOps 10).1 (by decide) ⟨20, by decide, by decide⟩,
   (C13_next_line_number letPrintEndOps 30).2.1 (by decide) (by decide),
   (C13_next_line_number letPrintEndOps 15).2.2.1 (by decide)⟩

/-- C14. In every program state reached from the constructed `Program`: when the index is
empty `getFirstLineNumber` is `-1`; otherwise it is a line number of the index and no
line number of the index is below it. -/
theorem C14_first_line_number (ops : List ProgramOp) :
    ((Program.afterOps ops).lineNumbers = [] → (Program.afterOps ops).getFirstLineNumber = -1)
    ∧ ((Program.afterOps ops).lineNumbers ≠ [] →
      (Program.afterOps ops).getFirstLineNumber ∈ (Program.afterOps ops).lineNumbers
      ∧ ∀ k ∈ (Program.afterOps ops).lineNumbers,
          (Program.afterOps ops).getFirstLineNumber ≤ k) := by
  have hs := (afterOps_index ops).1
  constructor
  · intro h
    simp [Program.getFirstLineNumber, h]
  · intro h
    cases hl : (Program.afterOps ops).lineNumbers with
    | nil => exact absurd hl h
    | cons x xs =>
      rw [hl] at hs
      have hx := List.pairwise_cons.1 hs
      simp only [Program.getFirstLineNumber, hl]
      refine ⟨List.mem_cons_self x xs, ?_⟩
      intro k hk
      rcases List.mem_cons.1 hk with e | e
      · omega
      · exact le_of_lt (hx.1 k e)

theorem C14_first_line_number_witness :
    (Program.afterOps [.addSourceLine 10 "10 END", .clear]).getFirstLineNumber = -1
    ∧ (Program.afterOps letPrintEndOps).getFirstLineNumber
        ∈ (Program.afterOps letPrintEndOps).lineNumbers
    ∧ ∀ k ∈ (Program.afterOps letPrintEndOps).lineNumbers,
        (Program.afterOps letPrintEndOps).getFirstLineNumber ≤ k :=
  ⟨(C14_first_line_number [.addSourceLine 10 "10 END", .clear]).1 rfl,
   (C14_first_line_number letPrintEndOps).2 (by decide)⟩

/-! ## C15: removing a line -/

/-- C15 (counterexample). Line 7 was never added (no text, not in the index,
`getSourceLine 7` is empty) and a statement was attached to it with
`setParsedStatement`; `removeSourceLine 7` deletes that statement, so the program state
after the call differs from the state before it. -/
theorem C15_remove_unstored_counterexample :
    orphanProgram.sourceLines 7 = none
    ∧ 7 ∉ orphanProgram.lineNumbers
    ∧ orphanProgram.getSourceLine 7 = ""
    ∧ orphanProgram.getParsedStatement 7 = some .RemStatement
    ∧ (orphanProgram.removeSourceLine 7).getParsedStatement 7 = none := by
  refine ⟨rfl, by decide, rfl, rfl, rfl⟩

/-- C15 (amended). `removeSourceLine n` leaves line `n` without text and without parsed
statement; for every other line number `k` the text, the parsed statement and the
membership in the index are what they were; when `n` has no text, is not in the index and
has no parsed statement, the program after the call is the program before it. A line that
consists of a number alone makes `processLine` do exactly this call and nothing else. -/
theorem C15_remove_frame (p : Program) (n k : Int) (hk : k ≠ n) :
    (p.removeSourceLine n).getSourceLine n = ""
    ∧ (p.removeSourceLine n).getParsedStatement n = none
    ∧ (p.removeSourceLine n).getSourceLine k = p.getSourceLine k
    ∧ (p.removeSourceLine n).getParsedStatement k = p.getParsedStatement k
    ∧ (k ∈ (p.removeSourceLine n).lineNumbers ↔ k ∈ p.lineNumbers)
    ∧ (p.sourceLines n = none → n ∉ p.lineNumbers → p.parsedStatements n = none →
        p.removeSourceLine n = p)
    ∧ (∀ (tokenize : Tokenizer) (readE : ExpReader) (ev : Evaluator) (fuel : Nat)
        (line firstToken : String) (m : Machine) (running : Bool),
        tokenize line = [firstToken] → stoi firstToken = some n →
        processLine tokenize readE ev fuel line m running
          = some ⟨{ m with program := m.program.removeSourceLine n }, running, none⟩) := by
  refine ⟨?_, ?_, ?_, ?_, ?_, ?_, ?_⟩
  · simp [Program.getSourceLine, Program.removeSourceLine]
  · simp [Program.getParsedStatement, Program.removeSourceLine]
  · simp [Program.getSourceLine, Program.removeSourceLine, hk]
  · simp [Program.getParsedStatement, Program.removeSourceLine, hk]
  · simp only [Program.removeSourceLine]
    exact List.mem_erase_of_ne hk
  · intro h1 h2 h3
    cases p with
    | mk src parsed idx =>
      simp only [Program.removeSourceLine, Program.mk.injEq]
      refine ⟨?_, ?_, List.erase_of_not_mem h2⟩
      · funext j
        by_cases hj : j = n
        · simp only [hj, if_true]; exact h1.symm
        · simp [hj]
      · funext j
        by_cases hj : j = n
        · simp only [hj, if_true]; exact h3.symm
        · simp [hj]
  · intro tokenize readE ev fuel line firstToken m running htok hnum
    simp [processLine, htok, hnum]

theorem C15_remove_frame_witness :
    ((Program.afterOps letPrintEndOps).removeSourceLine 20).getSourceLine 20 = ""
    ∧ ((Program.afterOps letPrintEndOps).removeSourceLine 20).getParsedStatement 20 = none
    ∧ ((Program.afterOps letPrintEndOps).removeSourceLine 20).getSourceLine 10
        = (Program.afterOps letPrintEndOps).getSourceLine 10
    ∧ ((Program.afterOps letPrintEndOps).removeSourceLine 20).getParsedStatement 10
        = (Program.afterOps letPrintEndOps).getParsedStatement 10
    ∧ ((10 : Int) ∈ ((Program.afterOps letPrintEndOps).removeSourceLine 20).lineNumbers
        ↔ (10 : Int) ∈ (Program.afterOps letPrintEndOps).lineNumbers)
    ∧ (Program.afterOps letPrintEndOps).removeSourceLine 40 = Program.afterOps letPrintEndOps
    ∧ processLine blankTokens readAtom Expression.eval 0 "20"
        ⟨⟨fun _ => none⟩, Program.afterOps letPrintEndOps, [], []⟩ true
      = some ⟨⟨⟨fun _ => none⟩, (Program.afterOps letPrintEndOps).removeSourceLine 20, [], []⟩,
          true, none⟩ :=
  have h := C15_remove_frame (Program.afterOps letPrintEndOps) 20 10 (by decide)
  have h40 := C15_remove_frame (Program.afterOps letPrintEndOps) 40 10 (by decide)
  ⟨h.1, h.2.1, h.2.2.1, h.2.2.2.1, h.2.2.2.2.1, h40.2.2.2.2.2.1 rfl (by decide) rfl,
   h.2.2.2.2.2.2 blankTokens readAtom Expression.eval 0 "20" "20"
     ⟨⟨fun _ => none⟩, Program.afterOps letPrintEndOps, [], []⟩ true rfl rfl⟩

/-! ## C16: CLEAR -/

/-- C16. After `clear` the program has no line numbers, no text and no parsed statement:
`getFirstLineNumber` is `-1`, `getSourceLine` is empty and `getParsedStatement` is none for
every `n`; the program after `clear` is the freshly constructed one, so `clear` on the
empty program leaves it as it is and a second `clear` changes nothing; the statement
CLEAR does this call and nothing else. -/
theorem C16_clear (ev : Evaluator) (run : Machine → Option Machine) (m : Machine)
    (p : Program) (n : Int) :
    p.clear.getFirstLineNumber = -1
    ∧ p.clear.lineNumbers = []
    ∧ p.clear.getSourceLine n = ""
    ∧ p.clear.getParsedStatement n = none
    ∧ p.clear = Program.empty
    ∧ Program.empty.clear = Program.empty
    ∧ p.clear.clear = p.clear
    ∧ Statement.execute ev run .ClearStatement m
        = some ({ m with program := m.program.clear }, none) := by
  exact ⟨rfl, rfl, rfl, rfl, rfl, rfl, rfl, rfl⟩

/-! ## C17: attaching parsed statements -/

/-- A line without parsed statement stays without one through calls that are not
`setParsedStatement` for that line. -/
theorem foldl_applyOp_parsed_none (n : Int) (ops : List ProgramOp) :
    ∀ p : Program, p.getParsedStatement n = none →
      (∀ op ∈ ops, op.setsStatement n = false) →
      (ops.foldl Program.applyOp p).getParsedStatement n = none := by
  induction ops with
  | nil => intro p h _; exact h
  | cons op rest ih =>
    intro p h hops
    have hop : op.setsStatement n = false := hops op (List.mem_cons_self op rest)
    have hrest : ∀ o ∈ rest, o.setsStatement n = false :=
      fun o ho => hops o (List.mem_cons_of_mem op ho)
    refine ih (p.applyOp op) ?_ hrest
    simp only [Program.getParsedStatement] at h ⊢
    cases op with
    | clear => rfl
    | addSourceLine k line =>
      simp only [Program.applyOp, Program.addSourceLine]
      split_ifs
      · rfl
      · exact h
    | removeSourceLine k =>
      simp only [Program.applyOp, Program.removeSourceLine]
      split_ifs
      · rfl
      · exact h
    | setParsedStatement k stmt =>
      have hk : ¬ k = n := by simpa [ProgramOp.setsStatement] using hop
      have hk2 : ¬ n = k := fun e => hk e.symm
      simp only [Program.applyOp, Program.setParsedStatement, if_neg hk2]
      exact h
    | listAll => exact h

/-- C17 (counterexample). Line 7 is absent from the program (never added: no text, not in
the index) and `getParsedStatement 7` is not none, because `setParsedStatement` attached a
statement to it. -/
theorem C17_absent_line_counterexample :
    orphanProgram = Program.empty.setParsedStatement 7 .RemStatement
    ∧ orphanProgram.sourceLines 7 = none
    ∧ 7 ∉ orphanProgram.lineNumbers
    ∧ orphanProgram.getParsedStatement 7 = some .RemStatement := by
  refine ⟨rfl, rfl, by decide, rfl⟩

/-- C17 (amended). In every program state: after `setParsedStatement n s1` and then
`setParsedStatement n s2`, `getParsedStatement n` is `s2`; `setParsedStatement n s1` leaves
`getParsedStatement k` as it was for every `k` other than `n`; and `getParsedStatement n`
is none whenever no `setParsedStatement n` was called since the text of `n` was last added
or removed, since the last `clear`, or since the program was constructed. -/
theorem C17_set_parsed_statement (p : Program) (n k : Int) (s1 s2 : Statement) (t : String)
    (ops : List ProgramOp) (hk : k ≠ n) (hops : ∀ op ∈ ops, op.setsStatement n = false) :
    ((p.setParsedStatement n s1).setParsedStatement n s2).getParsedStatement n = some s2
    ∧ (p.setParsedStatement n s1).getParsedStatement k = p.getParsedStatement k
    ∧ (ops.foldl Program.applyOp (p.addSourceLine n t)).getParsedStatement n = none
    ∧ (ops.foldl Program.applyOp (p.removeSourceLine n)).getParsedStatement n = none
    ∧ (ops.foldl Program.applyOp p.clear).getParsedStatement n = none
    ∧ (Program.afterOps ops).getParsedStatement n = none := by
  refine ⟨?_, ?_, ?_, ?_, ?_, ?_⟩
  · simp [Program.getParsedStatement, Program.setParsedStatement]
  · simp [Program.getParsedStatement, Program.setParsedStatement, hk]
  · exact foldl_applyOp_parsed_none n ops _
      (by simp [Program.getParsedStatement, Program.addSourceLine]) hops
  · exact foldl_applyOp_parsed_none n ops _
      (by simp [Program.getParsedStatement, Program.removeSourceLine]) hops
  · exact foldl_applyOp_parsed_none n ops _ rfl hops
  · exact foldl_applyOp_parsed_none n ops _ rfl hops

theorem C17_set_parsed_statement_witness :
    ((orphanProgram.setParsedStatement 10 .EndStatement).setParsedStatement 10
        .RemStatement).getParsedStatement 10 = some .RemStatement
    ∧ (orphanProgram.setParsedStatement 10 .EndStatement).getParsedStatement 7
        = orphanProgram.getParsedStatement 7
    ∧ ([ProgramOp.setParsedStatement 7 .EndStatement, ProgramOp.listAll].foldl Program.applyOp
        (orphanProgram.addSourceLine 10 "10 REM")).getParsedStatement 10 = none
    ∧ ([ProgramOp.setParsedStatement 7 .EndStatement, ProgramOp.listAll].foldl Program.applyOp
        (orphanProgram.removeSourceLine 10)).getParsedStatement 10 = none
    ∧ ([ProgramOp.setParsedStatement 7 .EndStatement, ProgramOp.listAll].foldl Program.applyOp
        orphanProgram.clear).getParsedStatement 10 = none
    ∧ (Program.afterOps [ProgramOp.setParsedStatement 7 .EndStatement,
        ProgramOp.listAll]).getParsedStatement 10 = none :=
  C17_set_parsed_statement orphanProgram 10 7 .EndStatement .RemStatement "10 REM"
    [ProgramOp.setParsedStatement 7 .EndStatement, ProgramOp.listAll] (by decide) (by decide)

/-! ## C19: an IF whose comparison is false -/

/-- C19. The loop of RUN stands at line `cur`, whose statement is `IF e1 op e2 THEN t` with
`op` one of `<`, `>`, `=`, and the expressions evaluate to `v1` and `v2`; nothing is
assumed about line `t`. If `v1 op v2` does not hold, the IF returns normally with the
machine as it was and RUN goes on at `getNextLineNumber cur`. The IF raises an error only
if `v1 op v2` holds and line `t` has no parsed statement, and in that case it raises
"IF THEN line does not exist". -/
theorem C19_false_if_ignores_target (ev : Evaluator) (run : Machine → Option Machine)
    (fuel : Nat) (cur t : Int) (e1 e2 : Expression) (op : String) (v1 v2 : Int) (m : Machine)
    (hcur : cur ≠ -1)
    (hstmt : m.program.getParsedStatement cur = some (.IfStatement e1 op e2 t))
    (hop : op = "<" ∨ op = ">" ∨ op = "=")
    (h1 : ev e1 m.state = .ok v1) (h2 : ev e2 m.state = .ok v2) :
    (¬ comparisonHolds op v1 v2 →
      Statement.execute ev run (.IfStatement e1 op e2 t) m = some (m, none)
      ∧ loopBody ev run cur m = some (.next (m.program.getNextLineNumber cur) m)
      ∧ runLoop ev (fuel + 2) cur m
          = runLoop ev (fuel + 1) (m.program.getNextLineNumber cur) m)
    ∧ (∀ m1 msg, Statement.execute ev run (.IfStatement e1 op e2 t) m
          = some (m1, some (.ErrorException msg)) →
        comparisonHolds op v1 v2 ∧ m.program.getParsedStatement t = none)
    ∧ (comparisonHolds op v1 v2 → m.program.getParsedStatement t = none →
        Statement.execute ev run (.IfStatement e1 op e2 t) m
          = some (m, some (.ErrorException "IF THEN line does not exist"))) := by
  have hfalse : ¬ comparisonHolds op v1 v2 → ifCondition op v1 v2 = false := by
    intro hc
    cases hb : ifCondition op v1 v2 with
    | false => rfl
    | true => exact absurd ((ifCondition_iff op v1 v2 hop).1 hb) hc
  refine ⟨fun hc => ?_, ?_, ?_⟩
  · have hexec : ∀ run0, Statement.execute ev run0 (.IfStatement e1 op e2 t) m
        = some (m, none) := by
      intro run0
      simp [Statement.execute, h1, h2, hfalse hc]
    refine ⟨hexec run, ?_, ?_⟩
    · simp [loopBody, hstmt, hexec]
    · rw [runLoop_executes ev (fuel + 1) cur _ m hcur hstmt]
      simp only [continueWith, hexec]
  · intro m1 msg hex
    by_cases hc : comparisonHolds op v1 v2
    · refine ⟨hc, ?_⟩
      have hcond := (ifCondition_iff op v1 v2 hop).2 hc
      cases ht : m.program.getParsedStatement t with
      | none => rfl
      | some s => simp [Statement.execute, h1, h2, hcond, ht] at hex
    · simp [Statement.execute, h1, h2, hfalse hc] at hex
  · intro hc ht
    have hcond := (ifCondition_iff op v1 v2 hop).2 hc
    simp [Statement.execute, h1, h2, hcond, ht]

theorem C19_false_if_ignores_target_witness :
    Statement.execute Expression.eval (RunStatement.execute Expression.eval 0)
        (.IfStatement (.ConstantExp 2) "<" (.ConstantExp 1) 999) ifFalseMachine
        = some (ifFalseMachine, none)
    ∧ loopBody Expression.eval (RunStatement.execute Expression.eval 0) 10 ifFalseMachine
        = some (.next (ifFalseMachine.program.getNextLineNumber 10) ifFalseMachine)
    ∧ runLoop Expression.eval (0 + 2) 10 ifFalseMachine
        = runLoop Expression.eval (0 + 1) (ifFalseMachine.program.getNextLineNumber 10)
            ifFalseMachine :=
  (C19_false_if_ignores_target Expression.eval (RunStatement.execute Expression.eval 0) 0 10 999
    (.ConstantExp 2) (.ConstantExp 1) "<" 2 1 ifFalseMachine (by decide) rfl (Or.inl rfl) rfl
    rfl).1 (by decide)

/-! ## C20: a stored line without parsed statement -/

/-- C20. The loop of RUN stands at line `cur`, which is in the index and has no parsed
statement. The pass through the loop body raises nothing and changes nothing (variable
store, program, input and output are what they were), the loop variable becomes
`getNextLineNumber cur`, the run goes on from there, and it ends with the unchanged
machine when `getNextLineNumber cur` is `-1`. -/
theorem C20_unparsed_line_skipped (ev : Evaluator) (run : Machine → Option Machine)
    (fuel : Nat) (cur : Int) (m : Machine)
    (hcur : cur ≠ -1)
    (_hstored : cur ∈ m.program.lineNumbers)
    (hnone : m.program.getParsedStatement cur = none) :
    loopBody ev run cur m = some (.next (m.program.getNextLineNumber cur) m)
    ∧ runLoop ev (fuel + 2) cur m
        = runLoop ev (fuel + 1) (m.program.getNextLineNumber cur) m
    ∧ (m.program.getNextLineNumber cur = -1 → runLoop ev (fuel + 2) cur m = some m) := by
  have hbody : ∀ run0, loopBody ev run0 cur m
      = some (.next (m.program.getNextLineNumber cur) m) := by
    intro run0
    simp [loopBody, hnone]
  have hgo : runLoop ev (fuel + 2) cur m
      = runLoop ev (fuel + 1) (m.program.getNextLineNumber cur) m := by
    rw [runLoop_succ ev (fuel + 1) cur m hcur, hbody]
  refine ⟨hbody run, hgo, fun hlast => ?_⟩
  rw [hgo, hlast, runLoop_sentinel]

theorem C20_unparsed_line_skipped_witness :
    loopBody Expression.eval (RunStatement.execute Expression.eval 0) 10 unparsedLineMachine
        = some (.next (unparsedLineMachine.program.getNextLineNumber 10) unparsedLineMachine)
    ∧ runLoop Expression.eval (0 + 2) 10 unparsedLineMachine
        = runLoop Expression.eval (0 + 1) (unparsedLineMachine.program.getNextLineNumber 10)
            unparsedLineMachine
    ∧ (unparsedLineMachine.program.getNextLineNumber 10 = -1 →
        runLoop Expression.eval (0 + 2) 10 unparsedLineMachine = some unparsedLineMachine) :=
  C20_unparsed_line_skipped Expression.eval (RunStatement.execute Expression.eval 0) 0 10
    unparsedLineMachine (by decide) (by decide) rfl

/-! ## Runs over simple statements -/

/-- A simple statement comes back whatever `run` is, hands back the program it was given,
and throws no jump. -/
theorem simple_execute (ev : Evaluator) (stmt : Statement) (m : Machine)
    (hs : stmt.simple = true) :
    ∃ m1 thrown, (∀ run, stmt.execute ev run m = some (m1, thrown))
      ∧ m1.program = m.program ∧ ∀ g, thrown ≠ some (.int g) := by
  cases stmt with
  | RemStatement => exact ⟨m, none, fun _ => rfl, rfl, by simp⟩
  | LetStatement varName exp =>
    cases h : ev exp m.state with
    | error msg =>
      exact ⟨m, some (.ErrorException msg), fun _ => by simp [Statement.execute, h], rfl,
        by simp⟩
    | ok v =>
      exact ⟨{ m with state := m.state.setValue varName v }, none,
        fun _ => by simp [Statement.execute, h], rfl, by simp⟩
  | PrintStatement exp =>
    cases h : ev exp m.state with
    | error msg =>
      exact ⟨m, some (.ErrorException msg), fun _ => by simp [Statement.execute, h], rfl,
        by simp⟩
    | ok v =>
      exact ⟨{ m with output := m.output ++ [Output.value v] }, none,
        fun _ => by simp [Statement.execute, h], rfl, by simp⟩
  | InputStatement varName =>
    cases h : stoi (getline m.input).1 with
    | none =>
      exact ⟨{ m with input := (getline m.input).2 },
        some (.ErrorException "INPUT requires integer value"),
        fun _ => by simp [Statement.execute, h], rfl, by simp⟩
    | some v =>
      exact ⟨{ m with input := (getline m.input).2, state := m.state.setValue varName v }, none,
        fun _ => by simp [Statement.execute, h], rfl, by simp⟩
  | EndStatement => exact ⟨m, some (.runtime_error "END"), fun _ => rfl, rfl, by simp⟩
  | GotoStatement lineNumber => simp [Statement.simple] at hs
  | IfStatement exp1 op exp2 lineNumber => simp [Statement.simple] at hs
  | RunStatement => simp [Statement.simple] at hs
  | ListStatement => simp [Statement.simple] at hs
  | ClearStatement => simp [Statement.simple] at hs
  | QuitStatement => simp [Statement.simple] at hs

/-- In an index without repetition the element after `x` is the head of what follows `x`. -/
theorem nextAfter_append (x : Int) (pre rest : List Int) (hx : x ∉ pre) :
    nextAfter x (pre ++ x :: rest)
      = match rest with
        | [] => -1
        | y :: _ => y := by
  induction pre with
  | nil => simp [nextAfter]
  | cons a as ih =>
    have ha : ¬ a = x := fun e => hx (e ▸ List.mem_cons_self a as)
    simp only [List.cons_append, nextAfter, if_neg ha]
    exact ih (fun h => hx (List.mem_cons_of_mem a h))

/-- From a line of the index on, RUN over simple statements is the straight run over the
rest of the index, and it is over after one loop test per remaining line and one more. -/
theorem runLoop_straight (ev : Evaluator) (extra : Nat) (rest : List Int) :
    ∀ (pre : List Int) (x : Int) (m : Machine),
      m.program.lineNumbers = pre ++ x :: rest →
      (pre ++ x :: rest).Nodup → (-1 : Int) ∉ pre ++ x :: rest →
      m.program.allSimple →
      runLoop ev (rest.length + 2 + extra) x m = some (straightRun ev (x :: rest) m) := by
  induction rest with
  | nil =>
    intro pre x m hidx hnd hsent hsimple
    have hx : x ≠ -1 := fun e => hsent (by simp [e])
    have hxpre : x ∉ pre := by
      have := List.nodup_append.1 hnd
      intro hmem
      exact this.2.2 hmem (List.mem_cons_self x [])
    have hnext : m.program.getNextLineNumber x = -1 := by
      simp only [Program.getNextLineNumber, hidx]
      exact nextAfter_append x pre [] hxpre
    have hfuel : ([] : List Int).length + 2 + extra = (extra + 1) + 1 := by simp; omega
    rw [hfuel, runLoop_succ ev (extra + 1) x m hx]
    cases hstmt : m.program.getParsedStatement x with
    | none =>
      simp only [loopBody, hstmt, straightRun, hnext]
      exact runLoop_sentinel ev extra m
    | some stmt =>
      obtain ⟨m1, thrown, hex, hprog, hjump⟩ := simple_execute ev stmt m (hsimple x stmt hstmt)
      simp only [loopBody, hstmt, straightRun, hex]
      cases thrown with
      | none =>
        simp only [hprog, hnext]
        exact runLoop_sentinel ev extra m1
      | some th =>
        cases th with
        | ErrorException msg => rfl
        | runtime_error msg => rfl
        | int g => exact absurd rfl (hjump g)
  | cons y rest2 ih =>
    intro pre x m hidx hnd hsent hsimple
    have hx : x ≠ -1 := fun e => hsent (by simp [e])
    have hxpre : x ∉ pre := by
      have := List.nodup_append.1 hnd
      intro hmem
      exact this.2.2 hmem (List.mem_cons_self x _)
    have hnext : m.program.getNextLineNumber x = y := by
      simp only [Program.getNextLineNumber, hidx]
      exact nextAfter_append x pre (y :: rest2) hxpre
    have hlist : pre ++ x :: y :: rest2 = (pre ++ [x]) ++ y :: rest2 := by simp
    have hfuel : (y :: rest2).length + 2 + extra = (rest2.length + 2 + extra) + 1 := by
      simp; omega
    have hstep : ∀ m1 : Machine, m1.program = m.program →
        runLoop ev (rest2.length + 2 + extra) y m1 = some (straightRun ev (y :: rest2) m1) := by
      intro m1 hprog
      refine ih (pre ++ [x]) y m1 ?_ ?_ ?_ ?_
      · rw [hprog, hidx, hlist]
      · rw [← hlist]; exact hnd
      · rw [← hlist]; exact hsent
      · rw [Program.allSimple, hprog]; exact hsimple
    rw [hfuel, runLoop_succ ev _ x m hx]
    cases hstmt : m.program.getParsedStatement x with
    | none =>
      simp only [loopBody, hstmt, hnext]
      rw [hstep m rfl]
      conv_rhs => rw [straightRun]
      simp only [hstmt]
    | some stmt =>
      obtain ⟨m1, thrown, hex, hprog, hjump⟩ := simple_execute ev stmt m (hsimple x stmt hstmt)
      conv_rhs => rw [straightRun]
      simp only [loopBody, hstmt, hex]
      cases thrown with
      | none =>
        simp only [hprog, hnext]
        exact hstep m1 hprog
      | some th =>
        cases th with
        | ErrorException msg => rfl
        | runtime_error msg => rfl
        | int g => exact absurd rfl (hjump g)

/-- When the index is strictly ascending and does not hold `-1` and every parsed statement
is simple, RUN terminates within one loop test per stored line and one more, and its
result is that of the straight run over the index from the cleared variable store. -/
theorem run_straight (ev : Evaluator) (m : Machine) (extra : Nat)
    (hs : m.program.lineNumbers.Pairwise (· < ·))
    (hsent : (-1 : Int) ∉ m.program.lineNumbers)
    (hsimple : m.program.allSimple) :
    RunStatement.execute ev (m.program.lineNumbers.length + 1 + extra) m
      = some (straightRun ev m.program.lineNumbers { m with state := m.state.Clear }) := by
  cases hl : m.program.lineNumbers with
  | nil =>
    have hfirst : m.program.getFirstLineNumber = -1 := by
      simp [Program.getFirstLineNumber, hl]
    have hfuel : ([] : List Int).length + 1 + extra = extra + 1 := by simp; omega
    simp only [RunStatement.execute, hfirst, hfuel, straightRun]
    exact runLoop_sentinel ev extra _
  | cons x rest =>
    have hfirst : m.program.getFirstLineNumber = x := by
      simp [Program.getFirstLineNumber, hl]
    have hfuel : (x :: rest).length + 1 + extra = rest.length + 2 + extra := by
      rw [List.length_cons]
    simp only [RunStatement.execute, hfirst, hfuel]
    refine runLoop_straight ev extra rest [] x _ ?_ ?_ ?_ hsimple
    · simpa using hl
    · simpa [hl] using nodup_of_ascending _ hs
    · simpa [hl] using hsent

/-- The statements of `10 LET X = 5`, `20 PRINT X`, `30 END` are simple. -/
theorem letPrintEndOps_allSimple : (Program.afterOps letPrintEndOps).allSimple := by
  intro n stmt h
  simp only [Program.afterOps, letPrintEndOps, List.foldl, Program.applyOp,
    Program.getParsedStatement, Program.setParsedStatement, Program.addSourceLine,
    Program.empty] at h
  split_ifs at h
  · cases h; rfl
  · cases h; rfl
  · cases h; rfl

/-! ## C21: the stores stay consistent through `processLine` -/

/-- The statement built for a numbered line is of a storable kind. -/
theorem newStoredStatement_storable (tokenize : Tokenizer) (readE : ExpReader)
    (stmtType : String) (stmtScanner : List String) (stmt : Statement)
    (h : newStoredStatement tokenize readE stmtType stmtScanner = .ok stmt) :
    stmt.storable = true := by
  simp only [newStoredStatement] at h
  split_ifs at h
  · cases h; rfl
  · simp only [LetStatement.new] at h
    repeat' split at h
    all_goals first
      | (cases h; rfl)
      | cases h
  · simp only [PrintStatement.new] at h
    repeat' split at h
    all_goals first
      | (cases h; rfl)
      | cases h
  · simp only [InputStatement.new] at h
    repeat' split at h
    all_goals first
      | (cases h; rfl)
      | cases h
  · cases h; rfl
  · simp only [GotoStatement.new] at h
    repeat' split at h
    all_goals first
      | (cases h; rfl)
      | cases h
  · simp only [IfStatement.new] at h
    repeat' split at h
    all_goals first
      | (cases h; rfl)
      | cases h

/-- The statement built for a direct command is of a storable kind. -/
theorem newDirectStatement_storable (readE : ExpReader) (cmd : String)
    (scanner : List String) (stmt : Statement)
    (h : newDirectStatement readE cmd scanner = .ok stmt) : stmt.storable = true := by
  simp only [newDirectStatement] at h
  split_ifs at h
  · simp only [LetStatement.new] at h
    repeat' split at h
    all_goals first
      | (cases h; rfl)
      | cases h
  · simp only [PrintStatement.new] at h
    repeat' split at h
    all_goals first
      | (cases h; rfl)
      | cases h
  · simp only [InputStatement.new] at h
    repeat' split at h
    all_goals first
      | (cases h; rfl)
      | cases h

/-- The freshly constructed program is well kept. -/
theorem wellKept_empty : Program.empty.wellKept := by
  refine ⟨by simp [Program.empty], by simp [Program.empty], ?_, ?_⟩
  · intro n h; exact absurd rfl h
  · intro n stmt h; cases h

/-- `clear` leaves a well-kept program. -/
theorem wellKept_clear (p : Program) : p.clear.wellKept := wellKept_empty

/-- `addSourceLine` keeps a program well kept. -/
theorem wellKept_addSourceLine (p : Program) (n : Int) (line : String) (h : p.wellKept) :
    (p.addSourceLine n line).wellKept := by
  obtain ⟨hs, hm, hp, hst⟩ := h
  have hidx := applyOp_index p (.addSourceLine n line) hs hm
  refine ⟨hidx.1, hidx.2, ?_, ?_⟩
  · intro k hk
    simp only [Program.getParsedStatement, Program.addSourceLine] at hk ⊢
    by_cases hkn : k = n
    · simp [hkn] at hk
    · simp only [if_neg hkn] at hk ⊢
      exact hp k hk
  · intro k stmt hk
    simp only [Program.getParsedStatement, Program.addSourceLine] at hk
    by_cases hkn : k = n
    · simp [hkn] at hk
    · simp only [if_neg hkn] at hk
      exact hst k stmt hk

/-- `removeSourceLine` keeps a program well kept. -/
theorem wellKept_removeSourceLine (p : Program) (n : Int) (h : p.wellKept) :
    (p.removeSourceLine n).wellKept := by
  obtain ⟨hs, hm, hp, hst⟩ := h
  have hidx := applyOp_index p (.removeSourceLine n) hs hm
  refine ⟨hidx.1, hidx.2, ?_, ?_⟩
  · intro k hk
    simp only [Program.getParsedStatement, Program.removeSourceLine] at hk ⊢
    by_cases hkn : k = n
    · simp [hkn] at hk
    · simp only [if_neg hkn] at hk ⊢
      exact hp k hk
  · intro k stmt hk
    simp only [Program.getParsedStatement, Program.removeSourceLine] at hk
    by_cases hkn : k = n
    · simp [hkn] at hk
    · simp only [if_neg hkn] at hk
      exact hst k stmt hk

/-- `setParsedStatement` with a storable statement for a line that has text keeps a
program well kept. -/
theorem wellKept_setParsedStatement (p : Program) (n : Int) (stmt : Statement)
    (h : p.wellKept) (htext : p.sourceLines n ≠ none) (hstmt : stmt.storable = true) :
    (p.setParsedStatement n stmt).wellKept := by
  obtain ⟨hs, hm, hp, hst⟩ := h
  refine ⟨hs, hm, ?_, ?_⟩
  · intro k hk
    simp only [Program.getParsedStatement, Program.setParsedStatement] at hk ⊢
    by_cases hkn : k = n
    · rw [hkn]; exact htext
    · simp only [if_neg hkn] at hk
      exact hp k hk
  · intro k s hk
    simp only [Program.getParsedStatement, Program.setParsedStatement] at hk
    by_cases hkn : k = n
    · simp only [hkn, if_true, Option.some.injEq] at hk
      rw [← hk]; exact hstmt
    · simp only [if_neg hkn] at hk
      exact hst k s hk

/-- On a well-kept program `listAll` changes nothing in the program. -/
theorem listAll_wellKept (p : Program) (out : List Output) (h : p.wellKept) :
    (p.listAll out).1 = p := by
  have hl := listLoop_of_text p.lineNumbers p.sourceLines out (fun n hn => (h.2.1 n).1 hn)
  simp only [Program.listAll, hl]

/-- A statement built and executed on the spot leaves a well-kept program well kept. -/
theorem executeDirect_wellKept (ev : Evaluator) (fuel : Nat) (built : Except String Statement)
    (m : Machine) (running : Bool) (r : LineResult)
    (hbuilt : ∀ stmt, built = .ok stmt → stmt.storable = true)
    (h : executeDirect ev fuel built m running = some r) :
    r.machine.program = m.program := by
  cases built with
  | error msg =>
    simp only [executeDirect, Option.some.injEq] at h
    rw [← h]
  | ok stmt =>
    obtain ⟨m1, thrown, hex, hprog⟩ :=
      storable_execute_program ev (RunStatement.execute ev fuel) stmt m (hbuilt stmt rfl)
    simp only [executeDirect, hex, Option.some.injEq] at h
    rw [← h]; exact hprog

/-- A direct command leaves a well-kept program well kept. -/
theorem directCommand_wellKept (tokenize : Tokenizer) (readE : ExpReader) (ev : Evaluator)
    (fuel : Nat) (line : String) (m : Machine) (running : Bool) (r : LineResult)
    (hm : m.program.wellKept)
    (h : directCommand tokenize readE ev fuel line m running = some r) :
    r.machine.program.wellKept := by
  simp only [directCommand] at h
  split_ifs at h
  · -- RUN
    simp only [executeDirect, Statement.execute] at h
    cases hrun : RunStatement.execute ev fuel m with
    | none => simp [hrun] at h
    | some m1 =>
      simp only [hrun, Option.some.injEq] at h
      have hprog : m1.program = m.program :=
        runLoop_program ev fuel _ { m with state := m.state.Clear } m1 hm.2.2.2 hrun
      rw [← h]
      show m1.program.wellKept
      rw [hprog]; exact hm
  · -- LIST
    simp only [executeDirect, Statement.execute, Option.some.injEq] at h
    rw [← h]
    show (m.program.listAll m.output).1.wellKept
    rw [listAll_wellKept m.program m.output hm]; exact hm
  · -- CLEAR
    simp only [executeDirect, Statement.execute, Option.some.injEq] at h
    rw [← h]
    exact wellKept_clear m.program
  · -- QUIT
    simp only [Option.some.injEq] at h
    rw [← h]; exact hm
  · -- HELP
    simp only [Option.some.injEq] at h
    rw [← h]; exact hm
  · -- LET, PRINT, INPUT or an unknown command
    have hprog := executeDirect_wellKept ev fuel _ m running r
      (fun stmt hs => newDirectStatement_storable readE _ _ stmt hs) h
    rw [hprog]; exact hm

/-- One call of `processLine` leaves a well-kept program well kept, whatever the line and
whether or not the call raises an error. -/
theorem processLine_wellKept (tokenize : Tokenizer) (readE : ExpReader) (ev : Evaluator)
    (fuel : Nat) (line : String) (m : Machine) (running : Bool) (r : LineResult)
    (hm : m.program.wellKept)
    (h : processLine tokenize readE ev fuel line m running = some r) :
    r.machine.program.wellKept := by
  simp only [processLine] at h
  cases htok : tokenize line with
  | nil =>
    simp only [htok, Option.some.injEq] at h
    rw [← h]; exact hm
  | cons firstToken scanner =>
    simp only [htok] at h
    cases hnum : stoi firstToken with
    | none =>
      simp only [hnum] at h
      exact directCommand_wellKept tokenize readE ev fuel line m running r hm h
    | some n =>
      simp only [hnum] at h
      by_cases hsc : scanner = []
      · simp only [hsc, if_true, Option.some.injEq] at h
        rw [← h]
        exact wellKept_removeSourceLine m.program n hm
      · simp only [if_neg hsc] at h
        have hadd := wellKept_addSourceLine m.program n line hm
        cases hrest : tokenize (restOfLine scanner) with
        | nil =>
          simp only [hrest, Option.some.injEq] at h
          rw [← h]; exact hadd
        | cons stmtType stmtScanner =>
          simp only [hrest] at h
          cases hnew : newStoredStatement tokenize readE stmtType stmtScanner with
          | error msg =>
            simp only [hnew] at h
            exact directCommand_wellKept tokenize readE ev fuel line
              { m with program := m.program.addSourceLine n line } running r hadd h
          | ok stmt =>
            simp only [hnew, Option.some.injEq] at h
            rw [← h]
            refine wellKept_setParsedStatement _ n stmt hadd ?_
              (newStoredStatement_storable tokenize readE stmtType stmtScanner stmt hnew)
            simp [Program.addSourceLine]

/-- Every sequence of calls of `processLine` leaves a well-kept program well kept. -/
theorem processLines_wellKept (tokenize : Tokenizer) (readE : ExpReader) (ev : Evaluator)
    (inputs : List (String × Nat)) :
    ∀ (m : Machine) (running : Bool) (res : Machine × Bool), m.program.wellKept →
      processLines tokenize readE ev inputs m running = some res → res.1.program.wellKept := by
  induction inputs with
  | nil =>
    intro m running res hm h
    simp only [processLines, Option.some.injEq] at h
    rw [← h]; exact hm
  | cons input rest ih =>
    intro m running res hm h
    obtain ⟨line, fuel⟩ := input
    simp only [processLines] at h
    cases hp : processLine tokenize readE ev fuel line m running with
    | none => simp [hp] at h
    | some r =>
      simp only [hp] at h
      exact ih r.machine r.running res
        (processLine_wellKept tokenize readE ev fuel line m running r hm hp) h

/-- One pass of the loop of `main` leaves a well-kept program well kept. -/
theorem mainPass_wellKept (tokenize : Tokenizer) (readE : ExpReader) (ev : Evaluator)
    (fuel : Nat) (m : Machine) (running : Bool) (r : LineResult)
    (hm : m.program.wellKept)
    (h : mainPass tokenize readE ev fuel m running = some r) :
    r.machine.program.wellKept := by
  simp only [mainPass] at h
  split_ifs at h
  · simp only [Option.some.injEq] at h
    rw [← h]; exact hm
  · cases hp : processLine tokenize readE ev fuel (getline m.input).1
        { m with input := (getline m.input).2 } running with
    | none => simp [hp] at h
    | some r0 =>
      have h0 := processLine_wellKept tokenize readE ev fuel (getline m.input).1
        { m with input := (getline m.input).2 } running r0 hm hp
      obtain ⟨m1, running1, thrown⟩ := r0
      simp only [hp] at h
      cases thrown with
      | none =>
        simp only [Option.some.injEq] at h
        rw [← h]; exact h0
      | some th =>
        cases th with
        | ErrorException msg =>
          simp only [Option.some.injEq] at h
          rw [← h]; exact h0
        | runtime_error msg =>
          simp only [Option.some.injEq] at h
          rw [← h]; exact h0
        | int g =>
          simp only [Option.some.injEq] at h
          rw [← h]; exact h0

/-- The loop of `main` leaves a well-kept program well kept. -/
theorem mainLoop_wellKept (tokenize : Tokenizer) (readE : ExpReader) (ev : Evaluator)
    (fuel : Nat) (passes : Nat) :
    ∀ (m : Machine) (running : Bool) (r : LineResult), m.program.wellKept →
      mainLoop tokenize readE ev fuel passes m running = some r →
      r.machine.program.wellKept := by
  induction passes with
  | zero =>
    intro m running r hm h
    simp only [mainLoop, Option.some.injEq] at h
    rw [← h]; exact hm
  | succ k ih =>
    intro m running r hm h
    simp only [mainLoop] at h
    split_ifs at h
    · simp only [Option.some.injEq] at h
      rw [← h]; exact hm
    · cases hp : mainPass tokenize readE ev fuel m running with
      | none => simp [hp] at h
      | some r0 =>
        have h0 := mainPass_wellKept tokenize readE ev fuel m running r0 hm hp
        obtain ⟨m1, running1, thrown⟩ := r0
        simp only [hp] at h
        cases thrown with
        | none => exact ih m1 running1 r h0 h
        | some th =>
          simp only [Option.some.injEq] at h
          rw [← h]; exact h0

/-- A well-kept program is consistent in the sense of the claim. -/
theorem consistent_of_wellKept (p : Program) (h : p.wellKept) : p.consistent := by
  obtain ⟨hs, hm, hp, _⟩ := h
  refine ⟨hm, fun n hn => ⟨hp n hn, (hm n).2 (hp n hn)⟩, fun t ht => ?_⟩
  exact nextAfter_ascending t p.lineNumbers hs ((hm t).2 (hp t ht))

/-- C21. For every token scanner, expression reader and evaluator: every program state
reached from the machine `main` starts with (empty program) by a sequence of calls of
`processLine`, whatever the lines are (numbered lines, bare numbers, CLEAR, RUN, LIST,
direct statements, lines that raise errors) and whatever is waiting on standard input, is
consistent: the index holds exactly the line numbers that have source text, every line
number with a parsed statement has source text and is in the index, and for every such
line number (every target a GOTO or IF can jump to) `getNextLineNumber` returns the least
stored line number above it, or `-1` when it is the greatest. The same holds for every
state the loop of `main` reaches by reading its lines from standard input. -/
theorem C21_store_consistency (tokenize : Tokenizer) (readE : ExpReader) (ev : Evaluator) :
    (∀ (inputs : List (String × Nat)) (stdin : List String) (res : Machine × Bool),
      processLines tokenize readE ev inputs (Machine.start stdin) true = some res →
      res.1.program.consistent)
    ∧ (∀ (fuel passes : Nat) (stdin : List String) (r : LineResult),
      mainLoop tokenize readE ev fuel passes (Machine.start stdin) true = some r →
      r.machine.program.consistent) := by
  constructor
  · intro inputs stdin res h
    exact consistent_of_wellKept _
      (processLines_wellKept tokenize readE ev inputs (Machine.start stdin) true res
        wellKept_empty h)
  · intro fuel passes stdin r h
    exact consistent_of_wellKept _
      (mainLoop_wellKept tokenize readE ev fuel passes (Machine.start stdin) true r
        wellKept_empty h)

theorem C21_store_consistency_witness :
    (∃ res, processLines blankTokens readAtom Expression.eval sampleSession (Machine.start [])
        true = some res
      ∧ res.1.program.lineNumbers = [10, 20]
      ∧ res.1.program.consistent)
    ∧ (∃ r, mainLoop blankTokens readAtom Expression.eval 9 4
        (Machine.start ["10 GOTO 30", "30 END", "RUN", "20 LET"]) true = some r
      ∧ r.machine.program.lineNumbers = [10, 20, 30]
      ∧ r.machine.program.consistent) :=
  ⟨⟨_, rfl, rfl,
    (C21_store_consistency blankTokens readAtom Expression.eval).1 sampleSession [] _ rfl⟩,
   ⟨_, rfl, rfl,
    (C21_store_consistency blankTokens readAtom Expression.eval).2 9 4
      ["10 GOTO 30", "30 END", "RUN", "20 LET"] _ rfl⟩⟩

/-! ## Line numbers read from tokens -/

/-- A token of an unsigned scanner that `stoi` converts is converted to a number that is
not negative. -/
theorem unsignedTokens_mem (scanner : List String) (token : String) (v : Int)
    (h : unsignedTokens scanner = true) (hmem : token ∈ scanner)
    (hv : stoi token = some v) : 0 ≤ v := by
  simp only [unsignedTokens, List.all_eq_true] at h
  have := h token hmem
  simpa [hv] using this

/-- When `stoi` reads a negative sign, the text starts with a minus sign. -/
theorem minus_of_sign (cs : List Char) :
    (match cs with
      | '-' :: r => (true, r)
      | '+' :: r => (false, r)
      | r => (false, r) : Bool × List Char).1 = true → '-' ∈ cs := by
  split
  · intro _
    exact List.mem_cons_self _ _
  · intro h; cases h
  · intro h; cases h

/-- A token without a minus sign is never converted to a negative number. -/
theorem stoi_nonneg_of_no_minus (token : String) (v : Int)
    (hminus : '-' ∉ token.toList) (hv : stoi token = some v) : 0 ≤ v := by
  have hdrop : '-' ∉ token.toList.dropWhile isSpaceChar :=
    fun hmem => hminus ((List.dropWhile_suffix isSpaceChar).subset hmem)
  simp only [stoi] at hv
  split_ifs at hv with h0 h1 h2
  · exact absurd (minus_of_sign _ h1) hdrop
  · injection hv with hv
    rw [← hv]
    exact Int.natCast_nonneg _

/-- A scanner none of whose tokens holds a minus sign is unsigned. -/
theorem unsignedTokens_of_no_minus (scanner : List String)
    (h : ∀ token ∈ scanner, '-' ∉ token.toList) : unsignedTokens scanner = true := by
  simp only [unsignedTokens, List.all_eq_true]
  intro token hmem
  cases hv : stoi token with
  | none => rfl
  | some v => simpa using stoi_nonneg_of_no_minus token v (h token hmem) hv

/-- The target of a GOTO built by its constructor is `stoi` of a token of the scanner. -/
theorem GotoStatement_new_target (scanner : List String) (t : Int)
    (h : GotoStatement.new scanner = .ok (.GotoStatement t)) :
    ∃ token ∈ scanner, stoi token = some t := by
  cases scanner with
  | nil => simp [GotoStatement.new] at h
  | cons lineStr rest =>
    simp only [GotoStatement.new] at h
    cases hs : stoi lineStr with
    | none => simp [hs] at h
    | some v =>
      simp only [hs, Except.ok.injEq, Statement.GotoStatement.injEq] at h
      exact ⟨lineStr, List.mem_cons_self lineStr rest, by rw [hs, h]⟩

/-- The tokens left by the first loop of the IF constructor are tokens of the scanner. -/
theorem scanToOperator_rest (scanner : List String) :
    ∀ (acc : String) (token : String), token ∈ (scanToOperator scanner acc).2.2 →
      token ∈ scanner := by
  induction scanner with
  | nil => intro acc token h; simp [scanToOperator] at h
  | cons x xs ih =>
    intro acc token h
    simp only [scanToOperator] at h
    split_ifs at h
    · exact List.mem_cons_of_mem x h
    · exact List.mem_cons_of_mem x (ih _ token h)

/-- The tokens left by the second loop of the IF constructor are tokens of the scanner. -/
theorem scanToThen_rest (scanner : List String) :
    ∀ (acc : String) (token : String), token ∈ (scanToThen scanner acc).2.2 →
      token ∈ scanner := by
  induction scanner with
  | nil => intro acc token h; simp [scanToThen] at h
  | cons x xs ih =>
    intro acc token h
    simp only [scanToThen] at h
    split_ifs at h
    · exact List.mem_cons_of_mem x h
    · exact List.mem_cons_of_mem x (ih _ token h)

/-- The target of an IF built by its constructor is `stoi` of a token of the scanner. -/
theorem IfStatement_new_target (tokenize : Tokenizer) (readE : ExpReader)
    (scanner : List String) (e1 e2 : Expression) (op : String) (t : Int)
    (h : IfStatement.new tokenize readE scanner = .ok (.IfStatement e1 op e2 t)) :
    ∃ token ∈ scanner, stoi token = some t := by
  simp only [IfStatement.new] at h
  by_cases hA : (scanToOperator scanner "").1 = "" ∨ (scanToOperator scanner "").2.1 = ""
  · simp [if_pos hA] at h
  · simp only [if_neg hA] at h
    cases hr1 : readE (tokenize (dropLastChar (scanToOperator scanner "").1)) with
    | error msg => simp [hr1] at h
    | ok r1 =>
      obtain ⟨exp1, rem1⟩ := r1
      simp only [hr1] at h
      by_cases hB : (scanToThen (scanToOperator scanner "").2.2 "").2.1 = false
          ∨ (scanToThen (scanToOperator scanner "").2.2 "").1 = ""
      · simp [if_pos hB] at h
      · simp only [if_neg hB] at h
        cases hr2 : readE (tokenize
            (dropLastChar (scanToThen (scanToOperator scanner "").2.2 "").1)) with
        | error msg => simp [hr2] at h
        | ok r2 =>
          obtain ⟨exp2, rem2⟩ := r2
          simp only [hr2] at h
          cases hrest : (scanToThen (scanToOperator scanner "").2.2 "").2.2 with
          | nil => simp [hrest] at h
          | cons lineStr rest =>
            simp only [hrest] at h
            have hmem : lineStr ∈ scanner := by
              apply scanToOperator_rest scanner "" lineStr
              apply scanToThen_rest _ "" lineStr
              rw [hrest]
              exact List.mem_cons_self lineStr rest
            cases hs : stoi lineStr with
            | none => simp [hs] at h
            | some v =>
              simp only [hs, Except.ok.injEq, Statement.IfStatement.injEq] at h
              exact ⟨lineStr, hmem, by rw [hs, h.2.2.2]⟩

/-! ## C3 and C4: control transfer by the IF and GOTO statements the interpreter builds -/

/-- C3. An IF statement `IF e1 op e2 THEN t`, with `op` one of `<`, `>`, `=`, was built by
its constructor from the tokens of the scanner, none of which is read as a negative number
(a minus sign is a token of its own). The loop of RUN stands at line `cur`, which holds
that IF; the expressions evaluate to `v1` and `v2`; line `t` has the parsed statement `s`.
If `v1 op v2` holds, the IF throws the jump to `t`, leaves the machine as it was, and the
statement RUN executes next is `s`, the statement of line `t`. If `v1 op v2` does not
hold, the IF returns normally with the machine as it was and RUN goes on at
`getNextLineNumber cur`, which ends the run when there is none (`-1`). In both cases the
variable store is the one before the IF. -/
theorem C3_if_transfers_control (tokenize : Tokenizer) (readE : ExpReader) (ev : Evaluator)
    (fuel : Nat) (cur t : Int) (e1 e2 : Expression) (op : String) (v1 v2 : Int)
    (s : Statement) (m : Machine) (scanner : List String)
    (hscan : unsignedTokens scanner = true)
    (hbuilt : IfStatement.new tokenize readE scanner = .ok (.IfStatement e1 op e2 t))
    (hcur : cur ≠ -1)
    (hstmt : m.program.getParsedStatement cur = some (.IfStatement e1 op e2 t))
    (hop : op = "<" ∨ op = ">" ∨ op = "=")
    (h1 : ev e1 m.state = .ok v1) (h2 : ev e2 m.state = .ok v2)
    (htarget : m.program.getParsedStatement t = some s) :
    (comparisonHolds op v1 v2 →
      Statement.execute ev (RunStatement.execute ev (fuel + 1)) (.IfStatement e1 op e2 t) m
          = some (m, some (.int t))
      ∧ runLoop ev (fuel + 2) cur m = continueWith ev fuel t s m)
    ∧ (¬ comparisonHolds op v1 v2 →
      Statement.execute ev (RunStatement.execute ev (fuel + 1)) (.IfStatement e1 op e2 t) m
          = some (m, none)
      ∧ runLoop ev (fuel + 2) cur m = runLoop ev (fuel + 1) (m.program.getNextLineNumber cur) m
      ∧ (m.program.getNextLineNumber cur = -1 → runLoop ev (fuel + 2) cur m = some m)) := by
  obtain ⟨token, hmem, htok⟩ := IfStatement_new_target tokenize readE scanner e1 e2 op t hbuilt
  have hnonneg : 0 ≤ t := unsignedTokens_mem scanner token t hscan hmem htok
  have ht : t ≠ -1 := by omega
  have h := ifStatement_transfers_control ev fuel cur t e1 e2 op v1 v2 s m hcur hstmt hop h1 h2
    htarget
  exact ⟨fun hc => ⟨(h.1 hc).1, (h.1 hc).2 ht⟩, h.2⟩

theorem C3_if_transfers_control_witness :
    (Statement.execute Expression.eval (RunStatement.execute Expression.eval (3 + 1))
        (.IfStatement (.ConstantExp 1) "<" (.ConstantExp 2) 30) ifMachine
        = some (ifMachine, some (.int 30))
      ∧ runLoop Expression.eval (3 + 2) 10 ifMachine
        = continueWith Expression.eval 3 30 (.PrintStatement (.ConstantExp 30)) ifMachine)
    ∧ (runLoop Expression.eval (3 + 2) 10 ifMachine).map (fun m => m.output)
        = some [Output.value 30] :=
  ⟨(C3_if_transfers_control blankTokens readAtom Expression.eval 3 10 30 (.ConstantExp 1)
    (.ConstantExp 2) "<" 1 2 (.PrintStatement (.ConstantExp 30)) ifMachine
    ["1", "<", "2", "THEN", "30"] (by decide) rfl (by decide) rfl (Or.inl rfl) rfl rfl
    rfl).1 (Or.inl ⟨rfl, by decide⟩), rfl⟩

/-- C4. A GOTO statement `GOTO t` was built by its constructor from the tokens of the
scanner, none of which is read as a negative number (a minus sign is a token of its own).
The loop of RUN stands at line `cur`, which holds that GOTO, and line `t` has the parsed
statement `s`. The GOTO throws the jump to `t` and leaves the machine (variable store
included) as it was; the loop variable becomes `t`; the statement RUN executes next is
`s`, on that unchanged machine; and the run then goes on from line `t`: when `s` returns
normally, at `getNextLineNumber t`. -/
theorem C4_goto_transfers_control (ev : Evaluator) (run : Machine → Option Machine)
    (fuel : Nat) (cur t : Int) (s : Statement) (m : Machine) (scanner : List String)
    (hscan : unsignedTokens scanner = true)
    (hbuilt : GotoStatement.new scanner = .ok (.GotoStatement t))
    (hcur : cur ≠ -1)
    (hstmt : m.program.getParsedStatement cur = some (.GotoStatement t))
    (htarget : m.program.getParsedStatement t = some s) :
    Statement.execute ev run (.GotoStatement t) m = some (m, some (.int t))
    ∧ loopBody ev run cur m = some (.next t m)
    ∧ runLoop ev (fuel + 2) cur m = continueWith ev fuel t s m
    ∧ (∀ m1, Statement.execute ev (RunStatement.execute ev fuel) s m = some (m1, none) →
        runLoop ev (fuel + 2) cur m = runLoop ev fuel (m1.program.getNextLineNumber t) m1) := by
  obtain ⟨token, hmem, htok⟩ := GotoStatement_new_target scanner t hbuilt
  have hnonneg : 0 ≤ t := unsignedTokens_mem scanner token t hscan hmem htok
  have ht : t ≠ -1 := by omega
  exact gotoStatement_transfers_control ev run fuel cur t s m hcur hstmt htarget ht

theorem C4_goto_transfers_control_witness :
    (Statement.execute Expression.eval (RunStatement.execute Expression.eval 3)
        (.GotoStatement 30) gotoMachine = some (gotoMachine, some (.int 30))
      ∧ loopBody Expression.eval (RunStatement.execute Expression.eval 3) 10 gotoMachine
        = some (.next 30 gotoMachine)
      ∧ runLoop Expression.eval (1 + 2) 10 gotoMachine
        = continueWith Expression.eval 1 30 (.PrintStatement (.ConstantExp 30)) gotoMachine
      ∧ (∀ m1, Statement.execute Expression.eval (RunStatement.execute Expression.eval 1)
            (.PrintStatement (.ConstantExp 30)) gotoMachine = some (m1, none) →
          runLoop Expression.eval (1 + 2) 10 gotoMachine
            = runLoop Expression.eval 1 (m1.program.getNextLineNumber 30) m1))
    ∧ (runLoop Expression.eval (1 + 2) 10 gotoMachine).map (fun m => m.output)
        = some [Output.value 30] :=
  ⟨C4_goto_transfers_control Expression.eval (RunStatement.execute Expression.eval 3) 1 10 30
    (.PrintStatement (.ConstantExp 30)) gotoMachine ["30"] (by decide) rfl (by decide) rfl rfl,
   rfl⟩

/-! ## C18: programs without GOTO and IF, as `processLine` stores them -/

/-- A direct command leaves the program as it is or clears it. -/
theorem directCommand_program (tokenize : Tokenizer) (readE : ExpReader) (ev : Evaluator)
    (fuel : Nat) (line : String) (m : Machine) (running : Bool) (r : LineResult)
    (hm : m.program.wellKept)
    (h : directCommand tokenize readE ev fuel line m running = some r) :
    r.machine.program = m.program ∨ r.machine.program = m.program.clear := by
  simp only [directCommand] at h
  split_ifs at h
  · simp only [executeDirect, Statement.execute] at h
    cases hrun : RunStatement.execute ev fuel m with
    | none => simp [hrun] at h
    | some m1 =>
      simp only [hrun, Option.some.injEq] at h
      have hprog : m1.program = m.program :=
        runLoop_program ev fuel _ { m with state := m.state.Clear } m1 hm.2.2.2 hrun
      rw [← h]
      exact Or.inl hprog
  · simp only [executeDirect, Statement.execute, Option.some.injEq] at h
    rw [← h]
    exact Or.inl (listAll_wellKept m.program m.output hm)
  · simp only [executeDirect, Statement.execute, Option.some.injEq] at h
    rw [← h]
    exact Or.inr rfl
  · simp only [Option.some.injEq] at h
    rw [← h]; exact Or.inl rfl
  · simp only [Option.some.injEq] at h
    rw [← h]; exact Or.inl rfl
  · exact Or.inl (executeDirect_wellKept ev fuel _ m running r
      (fun stmt hs => newDirectStatement_storable readE _ _ stmt hs) h)

/-- A direct command stores no negative line number. -/
theorem directCommand_nonneg (tokenize : Tokenizer) (readE : ExpReader) (ev : Evaluator)
    (fuel : Nat) (line : String) (m : Machine) (running : Bool) (r : LineResult)
    (hm : m.program.wellKept) (hn : m.program.nonnegLines)
    (h : directCommand tokenize readE ev fuel line m running = some r) :
    r.machine.program.nonnegLines := by
  rcases directCommand_program tokenize readE ev fuel line m running r hm h with e | e
  · rw [e]; exact hn
  · rw [e]
    intro n hmem
    simp [Program.clear] at hmem

/-- One call of `processLine` on a line whose tokens are unsigned stores no negative line
number. -/
theorem processLine_nonneg (tokenize : Tokenizer) (readE : ExpReader) (ev : Evaluator)
    (fuel : Nat) (line : String) (m : Machine) (running : Bool) (r : LineResult)
    (hm : m.program.wellKept) (hn : m.program.nonnegLines)
    (htok : unsignedTokens (tokenize line) = true)
    (h : processLine tokenize readE ev fuel line m running = some r) :
    r.machine.program.nonnegLines := by
  simp only [processLine] at h
  cases hline : tokenize line with
  | nil =>
    simp only [hline, Option.some.injEq] at h
    rw [← h]; exact hn
  | cons firstToken scanner =>
    simp only [hline] at h
    cases hnum : stoi firstToken with
    | none =>
      simp only [hnum] at h
      exact directCommand_nonneg tokenize readE ev fuel line m running r hm hn h
    | some n =>
      simp only [hnum] at h
      have hn0 : 0 ≤ n :=
        unsignedTokens_mem (tokenize line) firstToken n htok
          (by rw [hline]; exact List.mem_cons_self firstToken scanner) hnum
      have hadd : (m.program.addSourceLine n line).nonnegLines := by
        intro k hk
        simp only [Program.addSourceLine] at hk
        rcases (mem_setInsert n k _).1 hk with e | e
        · rw [e]; exact hn0
        · exact hn k e
      by_cases hsc : scanner = []
      · simp only [hsc, if_true, Option.some.injEq] at h
        rw [← h]
        intro k hk
        simp only [Program.removeSourceLine] at hk
        exact hn k (List.mem_of_mem_erase hk)
      · simp only [if_neg hsc] at h
        cases hrest : tokenize (restOfLine scanner) with
        | nil =>
          simp only [hrest, Option.some.injEq] at h
          rw [← h]; exact hadd
        | cons stmtType stmtScanner =>
          simp only [hrest] at h
          cases hnew : newStoredStatement tokenize readE stmtType stmtScanner with
          | error msg =>
            simp only [hnew] at h
            exact directCommand_nonneg tokenize readE ev fuel line
              { m with program := m.program.addSourceLine n line } running r
              (wellKept_addSourceLine m.program n line hm) hadd h
          | ok stmt =>
            simp only [hnew, Option.some.injEq] at h
            rw [← h]
            exact hadd

/-- A session of lines whose tokens are unsigned keeps the program well kept and stores
no negative line number. -/
theorem processLines_nonneg (tokenize : Tokenizer) (readE : ExpReader) (ev : Evaluator)
    (inputs : List (String × Nat)) :
    ∀ (m : Machine) (running : Bool) (res : Machine × Bool), m.program.wellKept →
      m.program.nonnegLines →
      (∀ inp ∈ inputs, unsignedTokens (tokenize inp.1) = true) →
      processLines tokenize readE ev inputs m running = some res →
      res.1.program.wellKept ∧ res.1.program.nonnegLines := by
  induction inputs with
  | nil =>
    intro m running res hm hn _ h
    simp only [processLines, Option.some.injEq] at h
    rw [← h]; exact ⟨hm, hn⟩
  | cons input rest ih =>
    intro m running res hm hn htok h
    obtain ⟨line, fuel⟩ := input
    simp only [processLines] at h
    cases hp : processLine tokenize readE ev fuel line m running with
    | none => simp [hp] at h
    | some r =>
      simp only [hp] at h
      exact ih r.machine r.running res
        (processLine_wellKept tokenize readE ev fuel line m running r hm hp)
        (processLine_nonneg tokenize readE ev fuel line m running r hm hn
          (htok (line, fuel) (List.mem_cons_self _ _)) hp)
        (fun inp hinp => htok inp (List.mem_cons_of_mem _ hinp)) h

/-- A storable statement that is no GOTO and no IF is simple. -/
theorem simple_of_storable (stmt : Statement) (hs : stmt.storable = true)
    (hj : stmt.isJump = false) : stmt.simple = true := by
  cases stmt <;> simp_all [Statement.storable, Statement.isJump, Statement.simple]

/-- C18. A program was entered through `processLine`, from the start of `main`, by lines
whose tokens are never read as negative numbers (a minus sign is a token of its own), and
its parsed statements include no GOTO and no IF. Then for every variable store, input and
output RUN terminates, within one loop test per stored line and one more, and its result
is that of the straight run over the index from the cleared variable store: the lines are
visited once each, in the order of the index, which is strictly ascending and starts at
`getFirstLineNumber`, the statement of a line (if it has one) is executed, and the run
stops at the first statement that does not return normally (END or a failure) or after
the last line. -/
theorem C18_straight_run (tokenize : Tokenizer) (readE : ExpReader) (ev : Evaluator)
    (inputs : List (String × Nat)) (stdin : List String) (res : Machine × Bool)
    (state : EvalState) (input : List String) (output : List Output) (extra : Nat)
    (htok : ∀ inp ∈ inputs, unsignedTokens (tokenize inp.1) = true)
    (hreach : processLines tokenize readE ev inputs (Machine.start stdin) true = some res)
    (hnojump : res.1.program.noJumps) :
    RunStatement.execute ev (res.1.program.lineNumbers.length + 1 + extra)
        ⟨state, res.1.program, input, output⟩
      = some (straightRun ev res.1.program.lineNumbers
          ⟨state.Clear, res.1.program, input, output⟩)
    ∧ res.1.program.lineNumbers.Pairwise (· < ·)
    ∧ (∀ x rest, res.1.program.lineNumbers = x :: rest →
        res.1.program.getFirstLineNumber = x) := by
  have hinv := processLines_nonneg tokenize readE ev inputs (Machine.start stdin) true res
    wellKept_empty (by intro n hn; simp [Machine.start, Program.empty] at hn) htok hreach
  have hsent : (-1 : Int) ∉ res.1.program.lineNumbers := by
    intro hmem
    have := hinv.2 (-1) hmem
    omega
  have hsimple : res.1.program.allSimple := by
    intro n stmt hstmt
    exact simple_of_storable stmt (hinv.1.2.2.2 n stmt hstmt) (hnojump n stmt hstmt)
  refine ⟨?_, hinv.1.1, ?_⟩
  · exact run_straight ev ⟨state, res.1.program, input, output⟩ extra hinv.1.1 hsent hsimple
  · intro x rest hl
    simp [Program.getFirstLineNumber, hl]

/-- The statements of `10 LET X = 5`, `20 PRINT X`, `30 END` are neither GOTO nor IF. -/
theorem letPrintEndOps_noJumps : (Program.afterOps letPrintEndOps).noJumps := by
  intro n stmt h
  have hs := letPrintEndOps_allSimple n stmt h
  cases stmt <;> simp_all [Statement.isJump, Statement.simple]

theorem C18_straight_run_witness :
    processLines blankTokens readAtom Expression.eval letPrintEndSession (Machine.start [])
        true = some (⟨⟨fun _ => none⟩, Program.afterOps letPrintEndOps, [], []⟩, true)
    ∧ (RunStatement.execute Expression.eval
          ((Program.afterOps letPrintEndOps).lineNumbers.length + 1 + 0)
          ⟨⟨fun _ => none⟩, Program.afterOps letPrintEndOps, [], []⟩
        = some (straightRun Expression.eval (Program.afterOps letPrintEndOps).lineNumbers
            ⟨EvalState.Clear ⟨fun _ => none⟩, Program.afterOps letPrintEndOps, [], []⟩)
      ∧ (Program.afterOps letPrintEndOps).lineNumbers.Pairwise (· < ·)
      ∧ (∀ x rest, (Program.afterOps letPrintEndOps).lineNumbers = x :: rest →
          (Program.afterOps letPrintEndOps).getFirstLineNumber = x))
    ∧ (RunStatement.execute Expression.eval 4
        ⟨⟨fun _ => none⟩, Program.afterOps letPrintEndOps, [], []⟩).map (fun m => m.output)
      = some [Output.value 5] :=
  ⟨rfl,
   C18_straight_run blankTokens readAtom Expression.eval letPrintEndSession []
    (⟨⟨fun _ => none⟩, Program.afterOps letPrintEndOps, [], []⟩, true) ⟨fun _ => none⟩ [] [] 0
    (by decide) rfl letPrintEndOps_noJumps,
   rfl⟩

end Basic
